import Mathlib

/-!
# awsbilling: inventory grouping and cost model

A shallow embedding of `functions.go`, `types.go` and the per-instance part of
`main.go`, followed by theorems about it.

Conventions of the embedding.

* A Go `panic` is the result `none`.
* The provider responses (instance inventory, volume inventory, metric
  datapoints) are parameters: the functions below start where the Go code has
  the response in hand.
* Go strings are Lean strings.  `strings.Trim` with an ASCII cutset removes the
  same characters whether it is read on bytes or on code points.
* Pointer fields of the SDK structures (`*string`, `*int32`, `*float64`) are
  the values they point to.
* `int` is `Int`: the only `int` arithmetic adds `int32` volume sizes into a
  64-bit total, one per block device of an instance, which cannot wrap for
  fewer than 2^32 devices.
* `float64` is the type `Float64` below: the IEEE 754 binary64 values with
  round-to-nearest-even addition, multiplication and division.  A decimal
  constant of the source is the binary64 value nearest to it.
-/

set_option autoImplicit false

namespace AwsBilling

/-! ## Strings -/

/-- Membership of a character in a cutset string. -/
def inCutset (cutset : String) (c : Char) : Bool := cutset.data.contains c

/-- Go `strings.TrimRight`: drop every trailing character that is in `cutset`. -/
def TrimRight (s cutset : String) : String := ⟨s.data.rdropWhile (inCutset cutset)⟩

/-- Go `strings.TrimLeft`: drop every leading character that is in `cutset`. -/
def TrimLeft (s cutset : String) : String := ⟨s.data.dropWhile (inCutset cutset)⟩

/-- Go `strings.Trim`: drop every leading and every trailing character that is
in `cutset`. -/
def Trim (s cutset : String) : String := TrimLeft (TrimRight s cutset) cutset

/-- Go `fmt.Sprintf("%s%d", s, n)` for a non-negative `n`. -/
def Sprintf_s_d (s : String) (n : Nat) : String := s ++ ⟨Nat.toDigits 10 n⟩

/-! ## float64 -/

/-- IEEE 754 binary64 values: not-a-number, the two infinities, and the finite
values `(-1)^neg * m * 2^e`.  Results of the operations below are in canonical
form: `m < 2^53`, `-1074 ≤ e ≤ 971`, and `2^52 ≤ m` unless `e = -1074`. -/
inductive Float64 where
  | nan : Float64
  | inf (neg : Bool) : Float64
  | fin (neg : Bool) (m : Nat) (e : Int) : Float64
  deriving DecidableEq, Repr

namespace Float64

/-- Number of binary digits of `n`, by halving at most `fuel` times. -/
def bitLenAux : Nat → Nat → Nat
  | 0, _ => 0
  | fuel + 1, n => if n = 0 then 0 else bitLenAux fuel (n / 2) + 1

/-- Number of binary digits of `n` (`0` for `n = 0`). -/
def bitLen (n : Nat) : Nat := bitLenAux n n

/-- Numerator and denominator of `(n / d) / 2^e`. -/
def scaleFrac (n d : Nat) (e : Int) : Nat × Nat :=
  if 0 ≤ e then (n, d * 2 ^ e.toNat) else (n * 2 ^ (-e).toNat, d)

/-- Round the non-negative rational `n / d`, with sign `neg`, to the nearest
binary64 value, ties to even; overflow gives an infinity. -/
def roundNearestEven (neg : Bool) (n d : Nat) : Float64 :=
  if n = 0 ∨ d = 0 then fin neg 0 (-1074)
  else
    let e0 : Int := (bitLen n : Int) - (bitLen d : Int) - 53
    let q0 := (scaleFrac n d e0).1 / (scaleFrac n d e0).2
    let e1 : Int := if 2 ^ 53 ≤ q0 then e0 + 1 else e0
    let e : Int := if e1 < -1074 then -1074 else e1
    let N := (scaleFrac n d e).1
    let D := (scaleFrac n d e).2
    let q := N / D
    let r := N % D
    let m := if D < 2 * r ∨ (2 * r = D ∧ q % 2 = 1) then q + 1 else q
    let m2 := if m = 2 ^ 53 then 2 ^ 52 else m
    let e2 : Int := if m = 2 ^ 53 then e + 1 else e
    if 971 < e2 then inf neg else fin neg m2 e2

/-- Round `(n / d) * 2^k` with sign `neg`. -/
def roundScaled (neg : Bool) (n d : Nat) (k : Int) : Float64 :=
  roundNearestEven neg (scaleFrac n d (-k)).1 (scaleFrac n d (-k)).2

/-- Positive zero. -/
def zero : Float64 := fin false 0 (-1074)

/-- Conversion of the exact constant `n / d` to binary64, as for a Go untyped
constant used at type float64. -/
def ofRatio (n d : Nat) : Float64 := roundNearestEven false n d

/-- Check for not-a-number, as math.IsNaN. -/
def isNaN : Float64 → Bool
  | nan => true
  | _ => false

/-- Binary64 multiplication. -/
def mul : Float64 → Float64 → Float64
  | nan, _ => nan
  | _, nan => nan
  | inf s, inf t => inf (xor s t)
  | inf s, fin t m _ => if m = 0 then nan else inf (xor s t)
  | fin s m _, inf t => if m = 0 then nan else inf (xor s t)
  | fin s m e, fin t m' e' => roundScaled (xor s t) (m * m') 1 (e + e')

/-- Binary64 division. -/
def div : Float64 → Float64 → Float64
  | nan, _ => nan
  | _, nan => nan
  | inf _, inf _ => nan
  | inf s, fin t _ _ => inf (xor s t)
  | fin s _ _, inf t => fin (xor s t) 0 (-1074)
  | fin s m e, fin t m' e' =>
      if m' = 0 then (if m = 0 then nan else inf (xor s t))
      else roundScaled (xor s t) m m' (e - e')

/-- The integer `(-1)^neg * m`. -/
def signed (neg : Bool) (m : Nat) : Int := if neg then -(m : Int) else (m : Int)

/-- Binary64 addition. -/
def add : Float64 → Float64 → Float64
  | nan, _ => nan
  | _, nan => nan
  | inf s, inf t => if s = t then inf s else nan
  | inf s, fin _ _ _ => inf s
  | fin _ _ _, inf t => inf t
  | fin s m e, fin t m' e' =>
      let k : Int := if e ≤ e' then e else e'
      let total : Int := signed s m * 2 ^ (e - k).toNat + signed t m' * 2 ^ (e' - k).toNat
      if total = 0 then fin (s && t) 0 (-1074)
      else roundScaled (decide (total < 0)) total.natAbs 1 k

/-- Whether the value is finite. -/
def isFinite : Float64 → Bool
  | fin _ _ _ => true
  | _ => false

/-- The exact value of a finite binary64 value (`0` for not-a-number and the
infinities). -/
def toRat : Float64 → ℚ
  | fin s m e => (if s then -1 else 1) * (m : ℚ) * (2 : ℚ) ^ e
  | _ => 0

end Float64

/-! ## Provider data (`ec2types`) -/

/-- An `ec2types.Tag`. -/
structure Tag where
  Key : String
  Value : String
  deriving DecidableEq, Repr

/-- An `ec2types.Volume`: id, storage class and size. -/
structure Volume where
  VolumeId : String
  VolumeType : String
  Size : Int
  deriving DecidableEq, Repr

/-- The storage class constant `ec2types.VolumeTypeGp2`. -/
def VolumeTypeGp2 : String := "gp2"

/-- The storage class constant `ec2types.VolumeTypeGp3`. -/
def VolumeTypeGp3 : String := "gp3"

/-- An `ec2types.EbsInstanceBlockDevice`. -/
structure EbsInstanceBlockDevice where
  VolumeId : String
  deriving DecidableEq, Repr

/-- An `ec2types.InstanceBlockDeviceMapping`. -/
structure InstanceBlockDeviceMapping where
  Ebs : EbsInstanceBlockDevice
  deriving DecidableEq, Repr

/-- An `ec2types.CpuOptions`. -/
structure CpuOptions where
  CoreCount : Int
  ThreadsPerCore : Int
  deriving DecidableEq, Repr

/-- An `ec2types.Instance`, with the fields the program reads. -/
structure Instance where
  Tags : List Tag
  BlockDeviceMappings : List InstanceBlockDeviceMapping
  InstanceId : String
  InstanceType : String
  CpuOptions : CpuOptions
  deriving DecidableEq, Repr

/-- An `ec2types.Reservation`. -/
structure Reservation where
  Instances : List Instance
  deriving DecidableEq, Repr

/-! ## functions.go -/

/-- `GetVolumeById`: the first volume of the inventory with the given id;
`none` is the panic "volume ... not found". -/
def GetVolumeById : List Volume → String → Option Volume
  | [], _ => none
  | v :: rest, volumeId => if v.VolumeId = volumeId then some v else GetVolumeById rest volumeId

/-- `GetNameFromTags`: the value of the first tag with key "Name" and a
non-empty value, else `defaultName`. -/
def GetNameFromTags : List Tag → String → String
  | [], defaultName => defaultName
  | tag :: rest, defaultName =>
    if tag.Key = "Name" then
      if tag.Value ≠ "" then tag.Value else GetNameFromTags rest defaultName
    else GetNameFromTags rest defaultName

/-- The loop of `GetBlockdeviceSizes` over the remaining mappings, with the two
running totals; `none` is a panic (volume not found, or unsupported class). -/
def GetBlockdeviceSizesLoop (volumes : List Volume) :
    List InstanceBlockDeviceMapping → Int → Int → Option (Int × Int)
  | [], gp2Storage, gp3Storage => some (gp2Storage, gp3Storage)
  | b :: rest, gp2Storage, gp3Storage =>
    match GetVolumeById volumes b.Ebs.VolumeId with
    | none => none
    | some volume =>
      if volume.VolumeType = VolumeTypeGp2 then
        GetBlockdeviceSizesLoop volumes rest (gp2Storage + volume.Size) gp3Storage
      else if volume.VolumeType = VolumeTypeGp3 then
        GetBlockdeviceSizesLoop volumes rest gp2Storage (gp3Storage + volume.Size)
      else none

/-- `GetBlockdeviceSizes`, given the volume inventory that `GetVolumes`
returns. -/
def GetBlockdeviceSizes (volumes : List Volume) (bds : List InstanceBlockDeviceMapping) :
    Option (Int × Int) :=
  GetBlockdeviceSizesLoop volumes bds 0 0

/-! ## Go maps and slices -/

/-- A Go map with string keys, as its list of bindings.  Only `get`, `set` and
`delete` below build or read maps; the order of the bindings has no meaning. -/
abbrev GoMap (V : Type) := List (String × V)

namespace GoMap

variable {V : Type}

/-- The lookup `v, ok := m[k]`. -/
def get : GoMap V → String → Option V
  | [], _ => none
  | (k', v) :: rest, k => if k' = k then some v else get rest k

/-- The assignment `m[k] = v`. -/
def set : GoMap V → String → V → GoMap V
  | [], k, v => [(k, v)]
  | (k', v') :: rest, k, v => if k' = k then (k, v) :: rest else (k', v') :: set rest k v

/-- The builtin `delete(m, k)`. -/
def delete : GoMap V → String → GoMap V
  | [], _ => []
  | (k', v) :: rest, k => if k' = k then delete rest k else (k', v) :: delete rest k

/-- The keys of the map. -/
def keys (m : GoMap V) : List String := m.map Prod.fst

end GoMap

/-- A Go slice value: `none` is the nil slice. -/
abbrev Slice (α : Type) := Option (List α)

/-- The builtin `append(s, x)`. -/
def Slice.append {α : Type} : Slice α → α → Slice α
  | none, x => some [x]
  | some l, x => some (l ++ [x])

/-- The builtin `len(s)`. -/
def Slice.len {α : Type} : Slice α → Nat
  | none => 0
  | some l => l.length

/-- The elements of a slice. -/
def Slice.elems {α : Type} : Slice α → List α
  | none => []
  | some l => l

/-! ## types.go -/

/-- The instance record `AWSInstance` (the field `Type` is written `Type_`). -/
structure AWSInstance where
  Name : String
  Id : String
  Type_ : String
  Core : Int
  HT : Bool
  GP2Storage : Int
  GP3Storage : Int
  deriving DecidableEq, Repr

/-- The grouping `InstanceList`: `map[string][]AWSInstance`. -/
abbrev InstanceList := GoMap (Slice AWSInstance)

/-- The constant `UNNAMEDINSTANCE`. -/
def UNNAMEDINSTANCE : String := "unknown"

/-- The constant `TrafficPrice`. -/
def TrafficPrice : Float64 := Float64.ofRatio 7 100

/-- The map literal `instanceCostsInCanada`. -/
def instanceCostsInCanada : GoMap Float64 :=
  [ ("c5a.large", Float64.ofRatio 84 1000),
    ("db.gp2", Float64.ofRatio 253 1000),
    ("db.t4g.small", Float64.ofRatio 7 100),
    ("m5a.2xlarge", Float64.ofRatio 384 1000),
    ("m5a.large", Float64.ofRatio 96 1000),
    ("m5a.xlarge", Float64.ofRatio 192 1000),
    ("m6i.4xlarge", Float64.ofRatio 856 1000),
    ("m6i.xlarge", Float64.ofRatio 214 1000),
    ("r5a.4xlarge", Float64.ofRatio 992 1000),
    ("r5a.large", Float64.ofRatio 124 1000),
    ("r5a.xlarge", Float64.ofRatio 248 1000),
    ("t3.2xlarge", Float64.ofRatio 3712 10000),
    ("t3a.large", Float64.ofRatio 835 10000),
    ("t3a.medium", Float64.ofRatio 418 10000),
    ("t3a.nano", Float64.ofRatio 52 10000),
    ("t3a.small", Float64.ofRatio 209 10000),
    ("t3a.xlarge", Float64.ofRatio 167 1000),
    ("i4i.2xlarge", Float64.ofRatio 757 1000),
    ("i4i.xlarge", Float64.ofRatio 378 1000),
    ("i4i.large", Float64.ofRatio 189 1000),
    ("m6i.large", Float64.ofRatio 107 1000),
    ("t2.micro", Float64.ofRatio 128 10000) ]

/-- `GetInstanceCostForHour`: the table price of the record's type; `none` is
the panic "did not find cost for instance type ...". -/
def GetInstanceCostForHour (s : AWSInstance) : Option Float64 :=
  instanceCostsInCanada.get s.Type_

/-- `GetInstanceCostFor30Days`: `s.GetInstanceCostForHour() * 24 * 30`. -/
def GetInstanceCostFor30Days (s : AWSInstance) : Option Float64 :=
  match GetInstanceCostForHour s with
  | none => none
  | some hour => some (Float64.mul (Float64.mul hour (Float64.ofRatio 24 1)) (Float64.ofRatio 30 1))

/-- A `cwtypes.Datapoint`, with the requested statistic. -/
structure Datapoint where
  Sum : Float64
  deriving DecidableEq, Repr

/-- The loop `for _, d := range output.Datapoints { total += *d.Sum }`. -/
def sumDatapoints : List Datapoint → Float64 → Float64
  | [], total => total
  | d :: rest, total => sumDatapoints rest (Float64.add total d.Sum)

/-- `GetTrafficInGB`.  `metrics id` is the answer of the metrics query for the
instance id: `none` when the query returns an error (the function panics),
else the datapoints. -/
def GetTrafficInGB (metrics : String → Option (List Datapoint)) (s : AWSInstance) :
    Option Float64 :=
  match metrics s.Id with
  | none => none
  | some datapoints =>
    some (Float64.div (sumDatapoints datapoints Float64.zero)
      (Float64.ofRatio (1024 * 1024 * 1024) 1))

/-- `GetTrafficCostFor30Days`: the pair `(trafficcost, traffic)`. -/
def GetTrafficCostFor30Days (metrics : String → Option (List Datapoint)) (s : AWSInstance) :
    Option (Float64 × Float64) :=
  match GetTrafficInGB metrics s with
  | none => none
  | some traffic => some (Float64.mul traffic TrafficPrice, traffic)

/-- The group key of a resolved name: `strings.Trim(name, "0123456789")`. -/
def groupOf (name : String) : String := Trim name "0123456789"

/-- The record that `NewInstancesByGroup` builds for an instance, given its
resolved name and the two storage totals. -/
def mkNode (i : Instance) (name : String) (gp2Storage gp3Storage : Int) : AWSInstance :=
  { Name := name
    Id := i.InstanceId
    Type_ := i.InstanceType
    Core := i.CpuOptions.CoreCount
    HT := decide (i.CpuOptions.ThreadsPerCore > 0)
    GP2Storage := gp2Storage
    GP3Storage := gp3Storage }

/-- The inner loop of `NewInstancesByGroup` over the remaining instances of a
reservation; `counter` is the index of the first of them. -/
def instancesLoop (volumes : List Volume) :
    List Instance → Nat → InstanceList → Option InstanceList
  | [], _, instances => some instances
  | i :: rest, counter, instances =>
    let name := GetNameFromTags i.Tags (Sprintf_s_d UNNAMEDINSTANCE counter)
    match GetBlockdeviceSizes volumes i.BlockDeviceMappings with
    | none => none
    | some (gp2Storage, gp3Storage) =>
      let group := groupOf name
      let node := mkNode i name gp2Storage gp3Storage
      match instances.get group with
      | some s => instancesLoop volumes rest (counter + 1) (instances.set group (s.append node))
      | none => instancesLoop volumes rest (counter + 1) (instances.set group (some [node]))

/-- The outer loop of `NewInstancesByGroup` over the reservations. -/
def reservationsLoop (volumes : List Volume) :
    List Reservation → InstanceList → Option InstanceList
  | [], instances => some instances
  | n :: rest, instances =>
    match instancesLoop volumes n.Instances 0 instances with
    | none => none
    | some instances' => reservationsLoop volumes rest instances'

/-- What `NewInstancesByGroup` produces: the grouping it returns and, when it
prints the warning, the count and the records the warning lists. -/
structure Grouping where
  instances : InstanceList
  warning : Option (Nat × List AWSInstance)
  deriving DecidableEq, Repr

/-- `NewInstancesByGroup`, given the reservations that `GetEC2Instances`
returns and the volume inventory; `none` is a panic. -/
def NewInstancesByGroup (reservations : List Reservation) (volumes : List Volume) :
    Option Grouping :=
  match reservationsLoop volumes reservations [(UNNAMEDINSTANCE, none)] with
  | none => none
  | some instances =>
    match (instances.get UNNAMEDINSTANCE).join with
    | none => some { instances := instances.delete UNNAMEDINSTANCE, warning := none }
    | some unnamed =>
      if unnamed.length = 0 then
        some { instances := instances.delete UNNAMEDINSTANCE, warning := none }
      else
        some { instances := instances, warning := some (unnamed.length, unnamed) }

/-! ## main.go -/

/-- The traffic step of `main` for one instance: the pair
`(trafficCost, trafficGB)` after the not-a-number check. -/
def mainTraffic (metrics : String → Option (List Datapoint)) (inst : AWSInstance) :
    Option (Float64 × Float64) :=
  match GetTrafficCostFor30Days metrics inst with
  | none => none
  | some (trafficCost, trafficGB) =>
    if trafficGB.isNaN then some (Float64.zero, Float64.zero) else some (trafficCost, trafficGB)

/-! ## Vocabulary of the statements -/

/-- The volumes that the mappings of a device list resolve to, one per
mapping that resolves, in the order of the mappings. -/
def resolvedVolumes (volumes : List Volume) (bds : List InstanceBlockDeviceMapping) :
    List Volume :=
  bds.filterMap (fun b => GetVolumeById volumes b.Ebs.VolumeId)

/-- The sum of the sizes of the volumes of one storage class. -/
def sizeOfClass (cls : String) (vs : List Volume) : Int :=
  ((vs.filter (fun v => decide (v.VolumeType = cls))).map (fun v => v.Size)).sum

/-- The record of the instance at index `counter` of its reservation. -/
def recordOf (volumes : List Volume) (counter : Nat) (i : Instance) : AWSInstance :=
  mkNode i (GetNameFromTags i.Tags (Sprintf_s_d UNNAMEDINSTANCE counter))
    ((GetBlockdeviceSizes volumes i.BlockDeviceMappings).getD (0, 0)).1
    ((GetBlockdeviceSizes volumes i.BlockDeviceMappings).getD (0, 0)).2

/-- The records of a list of instances whose first index is `counter`. -/
def recordsFrom (volumes : List Volume) : List Instance → Nat → List AWSInstance
  | [], _ => []
  | i :: rest, counter => recordOf volumes counter i :: recordsFrom volumes rest (counter + 1)

/-- The records of an inventory, in inventory order: reservations, then the
instances of each reservation. -/
def inventoryRecords (volumes : List Volume) : List Reservation → List AWSInstance
  | [] => []
  | n :: rest => recordsFrom volumes n.Instances 0 ++ inventoryRecords volumes rest

/-- The records of a list whose resolved name has group key `k`, in order. -/
def membersOf (k : String) (records : List AWSInstance) : List AWSInstance :=
  records.filter (fun node => decide (groupOf node.Name = k))

/-- Every mapping of the device list resolves to a volume of class gp2 or gp3. -/
def devicesResolve (volumes : List Volume) (bds : List InstanceBlockDeviceMapping) : Prop :=
  ∀ b ∈ bds, ∃ v, GetVolumeById volumes b.Ebs.VolumeId = some v ∧
    (v.VolumeType = VolumeTypeGp2 ∨ v.VolumeType = VolumeTypeGp3)

/-- Every block device of every instance of the inventory resolves to a volume
of class gp2 or gp3. -/
def inventoryResolves (volumes : List Volume) (reservations : List Reservation) : Prop :=
  ∀ n ∈ reservations, ∀ i ∈ n.Instances, devicesResolve volumes i.BlockDeviceMappings

/-- The invariant of the loops of `NewInstancesByGroup`, after the records
`records` have been placed: every key has its members, and the reserved key is
present with a nil slice while it has none. -/
def Placed (instances : InstanceList) (records : List AWSInstance) : Prop :=
  ∀ k, instances.get k =
    if membersOf k records = [] then (if k = UNNAMEDINSTANCE then some none else none)
    else some (some (membersOf k records))

/-! ## Concrete inputs -/

/-- A volume inventory with one volume of each of three classes. -/
def exampleVolumes : List Volume :=
  [⟨"vol-1", "gp2", 8⟩, ⟨"vol-2", "gp3", 100⟩, ⟨"vol-3", "io1", 50⟩]

/-- A device list that names `vol-1` twice and `vol-2` once. -/
def exampleMappings : List InstanceBlockDeviceMapping :=
  [⟨⟨"vol-1"⟩⟩, ⟨⟨"vol-2"⟩⟩, ⟨⟨"vol-1"⟩⟩]

/-- An instance with the given tags and type and no block device. -/
def exampleInstance (id : String) (tags : List Tag) (type : String) : Instance :=
  { Tags := tags, BlockDeviceMappings := [], InstanceId := id, InstanceType := type,
    CpuOptions := ⟨1, 2⟩ }

/-- The record of `exampleInstance` under a resolved name. -/
def exampleRecord (id name type : String) : AWSInstance :=
  { Name := name, Id := id, Type_ := type, Core := 1, HT := true, GP2Storage := 0,
    GP3Storage := 0 }

/-- The inventory of the end-to-end scenario: "val1" and "val2" of type
t3a.medium in one reservation, "other" of type t3a.small in a second one. -/
def scenarioInventory : List Reservation :=
  [⟨[exampleInstance "i-1" [⟨"Name", "val1"⟩] "t3a.medium",
     exampleInstance "i-2" [⟨"Name", "val2"⟩] "t3a.medium"]⟩,
   ⟨[exampleInstance "i-3" [⟨"Name", "other"⟩] "t3a.small"]⟩]

/-- An inventory of one instance without any tag. -/
def untaggedInventory : List Reservation :=
  [⟨[exampleInstance "i-9" [] "t3a.small"]⟩]

/-- An inventory of one instance whose Name tag is "unknown7". -/
def taggedUnknownInventory : List Reservation :=
  [⟨[exampleInstance "i-7" [⟨"Name", "unknown7"⟩] "t3a.small"]⟩]

/-- Two datapoints of whole byte counts: 3 GiB and 1 GiB. -/
def exampleDatapoints : List Datapoint :=
  [⟨Float64.ofRatio (3 * 2 ^ 30) 1⟩, ⟨Float64.ofRatio (2 ^ 30) 1⟩]

/-- The entries of the price table with the binary64 value of the hourly price
and the binary64 value of the 30-day cost. -/
def costTable : List (String × Float64 × Float64) :=
  [
("c5a.large", Float64.fin false 6052837899185947 (-56), Float64.fin false 8511803295730238 (-47)),
    ("db.gp2", Float64.fin false 4557642822898942 (-54), Float64.fin false 6409185219701637 (-45)),
    ("db.t4g.small", Float64.fin false 5044031582654956 (-56), Float64.fin false 7093169413108532 (-47)),
    ("m5a.2xlarge", Float64.fin false 6917529027641082 (-54), Float64.fin false 4863887597560136 (-44)),
    ("m5a.large", Float64.fin false 6917529027641082 (-56), Float64.fin false 4863887597560136 (-46)),
    ("m5a.xlarge", Float64.fin false 6917529027641082 (-55), Float64.fin false 4863887597560136 (-45)),
    ("m6i.4xlarge", Float64.fin false 7710162562058289 (-53), Float64.fin false 5421208051447235 (-43)),
    ("m6i.xlarge", Float64.fin false 7710162562058289 (-55), Float64.fin false 5421208051447235 (-45)),
    ("r5a.4xlarge", Float64.fin false 8935141660703064 (-53), Float64.fin false 6282521480181842 (-43)),
    ("r5a.large", Float64.fin false 8935141660703064 (-56), Float64.fin false 6282521480181842 (-46)),
    ("r5a.xlarge", Float64.fin false 8935141660703064 (-55), Float64.fin false 6282521480181842 (-45)),
    ("t3.2xlarge", Float64.fin false 6686944726719712 (-54), Float64.fin false 4701758010974798 (-44)),
    ("t3a.large", Float64.fin false 6016809102166983 (-56), Float64.fin false 8461137799922319 (-47)),
    ("t3a.medium", Float64.fin false 6024014861570775 (-57), Float64.fin false 8471270899083902 (-48)),
    ("t3a.nano", Float64.fin false 5995191823955604 (-60), Float64.fin false 8430738502437568 (-51)),
    ("t3a.small", Float64.fin false 6024014861570775 (-58), Float64.fin false 8471270899083902 (-49)),
    ("t3a.xlarge", Float64.fin false 6016809102166983 (-55), Float64.fin false 8461137799922319 (-46)),
    ("i4i.2xlarge", Float64.fin false 6818449835838931 (-53), Float64.fin false 4794222540824248 (-43)),
    ("i4i.xlarge", Float64.fin false 6809442636584190 (-54), Float64.fin false 4787889353848258 (-44)),
    ("i4i.large", Float64.fin false 6809442636584190 (-55), Float64.fin false 4787889353848258 (-45)),
    ("m6i.large", Float64.fin false 7710162562058289 (-56), Float64.fin false 5421208051447235 (-46)),
    ("t2.micro", Float64.fin false 7378697629483821 (-59), Float64.fin false 5188146770730812 (-49)) ]

/-! ## Strings: facts about trimming -/

theorem inCutset_digits (c : Char) : inCutset "0123456789" c = c.isDigit := by
  by_cases h : c.isDigit
  · rw [h]
    have h1 : 48 ≤ c.toNat ∧ c.toNat ≤ 57 := by
      simp only [Char.isDigit, Bool.and_eq_true, decide_eq_true_eq] at h
      exact ⟨h.1, h.2⟩
    have h2 : c = Char.ofNat c.toNat := (Char.ofNat_toNat c).symm
    obtain ⟨h3, h4⟩ := h1
    interval_cases c.toNat <;> (rw [h2]; decide)
  · have h0 : c.isDigit = false := by simpa using h
    rw [h0]
    apply Bool.eq_false_iff.mpr
    intro hc
    apply h
    simp only [inCutset, List.contains_eq_any_beq, List.any_eq_true, beq_iff_eq] at hc
    obtain ⟨x, hx, rfl⟩ := hc
    simp only [List.mem_cons, List.mem_singleton] at hx
    rcases hx with h | h | h | h | h | h | h | h | h | h | h <;> first | (subst h; decide) | (simp at h)

theorem rdropWhile_append_rtakeWhile {α : Type} (p : α → Bool) (l : List α) :
    l.rdropWhile p ++ l.rtakeWhile p = l := by
  unfold List.rdropWhile List.rtakeWhile
  rw [← List.reverse_append, List.takeWhile_append_dropWhile, List.reverse_reverse]

theorem Trim_decompose (s cutset : String) :
    ∃ pre suf : List Char, s.data = pre ++ (Trim s cutset).data ++ suf ∧
      (∀ c ∈ pre, inCutset cutset c = true) ∧ (∀ c ∈ suf, inCutset cutset c = true) ∧
      (∀ c, (Trim s cutset).data.head? = some c → inCutset cutset c = false) ∧
      (∀ c, (Trim s cutset).data.getLast? = some c → inCutset cutset c = false) := by
  refine ⟨(s.data.rdropWhile (inCutset cutset)).takeWhile (inCutset cutset),
    s.data.rtakeWhile (inCutset cutset), ?_, ?_, ?_, ?_, ?_⟩
  · show s.data = _ ++ (s.data.rdropWhile (inCutset cutset)).dropWhile (inCutset cutset) ++ _
    rw [List.takeWhile_append_dropWhile, rdropWhile_append_rtakeWhile]
  · intro c hc
    exact List.mem_takeWhile_imp hc
  · intro c hc
    exact List.mem_rtakeWhile_imp hc
  · intro c hc
    have h := List.head?_dropWhile_not (inCutset cutset) (s.data.rdropWhile (inCutset cutset))
    change (List.dropWhile (inCutset cutset) (s.data.rdropWhile (inCutset cutset))).head? = some c
      at hc
    rw [hc] at h
    exact h
  · intro c hc
    change (List.dropWhile (inCutset cutset) (s.data.rdropWhile (inCutset cutset))).getLast? = some c
      at hc
    have hne : List.dropWhile (inCutset cutset) (s.data.rdropWhile (inCutset cutset)) ≠ [] := by
      intro h0
      rw [h0] at hc
      simp at hc
    have hsuf := List.dropWhile_suffix (l := s.data.rdropWhile (inCutset cutset)) (inCutset cutset)
    have hne1 : s.data.rdropWhile (inCutset cutset) ≠ [] := by
      intro h0
      rw [h0] at hne
      simp at hne
    have hlast := List.IsSuffix.getLast hsuf hne
    have hnot := List.rdropWhile_last_not (p := inCutset cutset) (l := s.data) hne1
    rw [List.getLast?_eq_getLast _ hne] at hc
    have hc2 : c = (List.dropWhile (inCutset cutset) (s.data.rdropWhile (inCutset cutset))).getLast hne :=
      (Option.some.inj hc).symm
    rw [hc2, hlast]
    simpa using hnot

theorem digitChar_isDigit (n : Nat) : (Nat.digitChar (n % 10)).isDigit = true := by
  have h : n % 10 < 10 := Nat.mod_lt _ (by decide)
  interval_cases n % 10 <;> decide

theorem toDigitsCore_isDigit (fuel : Nat) :
    ∀ (n : Nat) (ds : List Char), (∀ c ∈ ds, c.isDigit = true) →
      ∀ c ∈ Nat.toDigitsCore 10 fuel n ds, c.isDigit = true := by
  induction fuel with
  | zero => intro n ds hds c hc; exact hds c (by simpa [Nat.toDigitsCore] using hc)
  | succ fuel ih =>
    intro n ds hds c hc
    have hds' : ∀ c ∈ Nat.digitChar (n % 10) :: ds, c.isDigit = true := by
      intro c hc
      rcases List.mem_cons.mp hc with h | h
      · rw [h]; exact digitChar_isDigit n
      · exact hds c h
    simp only [Nat.toDigitsCore] at hc
    split at hc
    · exact hds' c hc
    · exact ih _ _ hds' c hc

theorem toDigits_isDigit (n : Nat) : ∀ c ∈ Nat.toDigits 10 n, c.isDigit = true :=
  toDigitsCore_isDigit _ _ _ (by simp)

theorem groupOf_unnamed (counter : Nat) :
    groupOf (Sprintf_s_d UNNAMEDINSTANCE counter) = UNNAMEDINSTANCE := by
  have hd : ∀ c ∈ (Nat.toDigits 10 counter).reverse, inCutset "0123456789" c = true := by
    intro c hc
    rw [inCutset_digits]
    exact toDigits_isDigit counter c (List.mem_reverse.mp hc)
  have h1 : (Sprintf_s_d UNNAMEDINSTANCE counter).data
      = UNNAMEDINSTANCE.data ++ Nat.toDigits 10 counter := rfl
  have h2 : (TrimRight (Sprintf_s_d UNNAMEDINSTANCE counter) "0123456789")
      = UNNAMEDINSTANCE := by
    unfold TrimRight
    rw [h1, List.rdropWhile, List.reverse_append, List.dropWhile_append_of_pos hd]
    decide
  unfold groupOf Trim
  rw [h2]
  decide

/-! ## functions.go: facts -/

theorem GetVolumeById_eq_find (volumes : List Volume) (volumeId : String) :
    GetVolumeById volumes volumeId = volumes.find? (fun v => decide (v.VolumeId = volumeId)) := by
  induction volumes with
  | nil => rfl
  | cons v rest ih =>
    by_cases h : v.VolumeId = volumeId
    · simp [GetVolumeById, h]
    · simp [GetVolumeById, h, ih]

theorem GetVolumeById_eq_none (volumes : List Volume) (volumeId : String) :
    GetVolumeById volumes volumeId = none ↔ ∀ v ∈ volumes, v.VolumeId ≠ volumeId := by
  rw [GetVolumeById_eq_find]
  simp

theorem GetNameFromTags_eq_find (tags : List Tag) (defaultName : String) :
    GetNameFromTags tags defaultName =
      match tags.find? (fun t => decide (t.Key = "Name") && decide (t.Value ≠ "")) with
      | some t => t.Value
      | none => defaultName := by
  induction tags with
  | nil => rfl
  | cons tag rest ih =>
    by_cases h1 : tag.Key = "Name"
    · by_cases h2 : tag.Value = ""
      · simp [GetNameFromTags, h1, h2, ih]
      · simp [GetNameFromTags, h1, h2]
    · simp [GetNameFromTags, h1, ih]

theorem GetBlockdeviceSizesLoop_some (volumes : List Volume) :
    ∀ (bds : List InstanceBlockDeviceMapping) (gp2 gp3 : Int), devicesResolve volumes bds →
      GetBlockdeviceSizesLoop volumes bds gp2 gp3 =
        some (gp2 + sizeOfClass VolumeTypeGp2 (resolvedVolumes volumes bds),
              gp3 + sizeOfClass VolumeTypeGp3 (resolvedVolumes volumes bds)) := by
  intro bds
  induction bds with
  | nil => intro gp2 gp3 _; simp [GetBlockdeviceSizesLoop, resolvedVolumes, sizeOfClass]
  | cons b rest ih =>
    intro gp2 gp3 h
    have hrest : devicesResolve volumes rest := fun b' hb' => h b' (List.mem_cons_of_mem _ hb')
    obtain ⟨v, hv, hcls⟩ := h b (List.mem_cons_self _ _)
    have hres : resolvedVolumes volumes (b :: rest) = v :: resolvedVolumes volumes rest := by
      simp [resolvedVolumes, List.filterMap_cons, hv]
    rw [hres]
    have hg : ¬ VolumeTypeGp3 = VolumeTypeGp2 := by decide
    have hg' : ¬ VolumeTypeGp2 = VolumeTypeGp3 := by decide
    rcases hcls with h2 | h3
    · have e : GetBlockdeviceSizesLoop volumes (b :: rest) gp2 gp3
          = GetBlockdeviceSizesLoop volumes rest (gp2 + v.Size) gp3 := by
        simp [GetBlockdeviceSizesLoop, hv, h2]
      rw [e, ih _ _ hrest]
      simp [sizeOfClass, List.filter_cons, h2, add_assoc, hg']
    · have e : GetBlockdeviceSizesLoop volumes (b :: rest) gp2 gp3
          = GetBlockdeviceSizesLoop volumes rest gp2 (gp3 + v.Size) := by
        simp [GetBlockdeviceSizesLoop, hv, h3, hg]
      rw [e, ih _ _ hrest]
      simp [sizeOfClass, List.filter_cons, h3, add_assoc, hg]

theorem GetBlockdeviceSizesLoop_none (volumes : List Volume) :
    ∀ (bds : List InstanceBlockDeviceMapping) (gp2 gp3 : Int),
      GetBlockdeviceSizesLoop volumes bds gp2 gp3 = none ↔ ¬ devicesResolve volumes bds := by
  intro bds
  induction bds with
  | nil => intro gp2 gp3; simp [GetBlockdeviceSizesLoop, devicesResolve]
  | cons b rest ih =>
    intro gp2 gp3
    have hsplit : devicesResolve volumes (b :: rest) ↔
        (∃ v, GetVolumeById volumes b.Ebs.VolumeId = some v ∧
          (v.VolumeType = VolumeTypeGp2 ∨ v.VolumeType = VolumeTypeGp3)) ∧
        devicesResolve volumes rest := by
      simp [devicesResolve]
    rw [hsplit]
    cases hv : GetVolumeById volumes b.Ebs.VolumeId with
    | none => simp [GetBlockdeviceSizesLoop, hv]
    | some v =>
      by_cases h2 : v.VolumeType = VolumeTypeGp2
      · simp [GetBlockdeviceSizesLoop, hv, h2, ih]
      · by_cases h3 : v.VolumeType = VolumeTypeGp3
        · simp [GetBlockdeviceSizesLoop, hv, h3, ih, show ¬ VolumeTypeGp3 = VolumeTypeGp2 by decide]
        · simp [GetBlockdeviceSizesLoop, hv, h2, h3]

/-! ## Go maps: facts -/

theorem GoMap.get_set {V : Type} (m : GoMap V) (k k' : String) (v : V) :
    (m.set k v).get k' = if k = k' then some v else m.get k' := by
  induction m with
  | nil => simp [GoMap.set, GoMap.get]
  | cons kv rest ih =>
    obtain ⟨k0, v0⟩ := kv
    by_cases h : k0 = k
    · subst h
      by_cases h' : k0 = k' <;> simp [GoMap.set, GoMap.get, h']
    · by_cases h' : k0 = k'
      · subst h'
        simp [GoMap.set, GoMap.get, h, Ne.symm h]
      · simp [GoMap.set, GoMap.get, h, h', ih]

theorem GoMap.get_delete {V : Type} (m : GoMap V) (k k' : String) :
    (m.delete k).get k' = if k = k' then none else m.get k' := by
  induction m with
  | nil => simp [GoMap.delete, GoMap.get]
  | cons kv rest ih =>
    obtain ⟨k0, v0⟩ := kv
    by_cases h : k0 = k
    · subst h
      by_cases h' : k0 = k'
      · subst h'
        simpa [GoMap.delete, GoMap.get] using ih
      · simp [GoMap.delete, GoMap.get, h', ih]
    · by_cases h' : k0 = k'
      · subst h'
        simp [GoMap.delete, GoMap.get, h, Ne.symm h]
      · simp [GoMap.delete, GoMap.get, h, h', ih]

theorem GoMap.get_eq_none {V : Type} (m : GoMap V) (k : String) :
    m.get k = none ↔ k ∉ m.keys := by
  induction m with
  | nil => simp [GoMap.get, GoMap.keys]
  | cons kv rest ih =>
    obtain ⟨k0, v0⟩ := kv
    have ih' : GoMap.get rest k = none ↔ k ∉ List.map Prod.fst rest := ih
    by_cases h : k0 = k
    · simp [GoMap.get, GoMap.keys, h]
    · simp [GoMap.get, GoMap.keys, h, Ne.symm h, ih']

theorem GoMap.get_of_mem {V : Type} (m : GoMap V) (k : String) (v : V)
    (hnd : m.keys.Nodup) (hmem : (k, v) ∈ m) : m.get k = some v := by
  induction m with
  | nil => simp at hmem
  | cons kv rest ih =>
    obtain ⟨k0, v0⟩ := kv
    have hnd' : k0 ∉ List.map Prod.fst rest ∧ (List.map Prod.fst rest).Nodup := by
      simpa [GoMap.keys] using hnd
    rcases List.mem_cons.mp hmem with h | h
    · simp only [Prod.mk.injEq] at h
      simp [GoMap.get, h.1, h.2]
    · have hk : k0 ≠ k := by
        intro e
        apply hnd'.1
        rw [e]
        exact List.mem_map.mpr ⟨(k, v), h, rfl⟩
      simp only [GoMap.get, hk, if_false]
      exact ih hnd'.2 h

theorem GoMap.keys_set {V : Type} (m : GoMap V) (k : String) (v : V) :
    (m.set k v).keys = if k ∈ m.keys then m.keys else m.keys ++ [k] := by
  induction m with
  | nil => simp [GoMap.set, GoMap.keys]
  | cons kv rest ih =>
    obtain ⟨k0, v0⟩ := kv
    have ih' : List.map Prod.fst (GoMap.set rest k v)
        = if k ∈ List.map Prod.fst rest then List.map Prod.fst rest
          else List.map Prod.fst rest ++ [k] := ih
    by_cases h : k0 = k
    · simp [GoMap.set, GoMap.keys, h]
    · by_cases hm : k ∈ List.map Prod.fst rest
      · simp only [GoMap.set, GoMap.keys, h, if_false, List.map_cons, ih', hm, if_true,
          List.mem_cons, or_true]
      · have hm' : ¬ (k = k0 ∨ k ∈ List.map Prod.fst rest) := by
          rintro (e | e)
          · exact h e.symm
          · exact hm e
        simp only [GoMap.set, GoMap.keys, h, if_false, List.map_cons, ih', hm,
          List.mem_cons, hm', List.cons_append]
        simp [Ne.symm h]

theorem GoMap.keys_set_nodup {V : Type} (m : GoMap V) (k : String) (v : V)
    (hnd : m.keys.Nodup) : (m.set k v).keys.Nodup := by
  rw [GoMap.keys_set]
  by_cases h : k ∈ m.keys
  · simpa [h] using hnd
  · simp only [h, if_false]
    rw [List.nodup_append]
    refine ⟨hnd, List.nodup_singleton k, ?_⟩
    intro a ha hb
    rw [List.mem_singleton] at hb
    exact h (hb ▸ ha)

theorem GoMap.keys_delete_sublist {V : Type} (m : GoMap V) (k : String) :
    List.Sublist (m.delete k).keys m.keys := by
  induction m with
  | nil => simp [GoMap.delete, GoMap.keys]
  | cons kv rest ih =>
    obtain ⟨k0, v0⟩ := kv
    have ih' : List.Sublist (List.map Prod.fst (GoMap.delete rest k)) (List.map Prod.fst rest) := ih
    by_cases h : k0 = k
    · simp only [GoMap.delete, GoMap.keys, h, if_true, List.map_cons]
      exact List.Sublist.cons _ ih'
    · simp only [GoMap.delete, GoMap.keys, h, if_false, List.map_cons]
      exact List.Sublist.cons₂ _ ih'

theorem GoMap.keys_delete_nodup {V : Type} (m : GoMap V) (k : String)
    (hnd : m.keys.Nodup) : (m.delete k).keys.Nodup :=
  List.Nodup.sublist (GoMap.keys_delete_sublist m k) hnd

/-! ## types.go: the loops of `NewInstancesByGroup` -/

theorem membersOf_append (k : String) (records : List AWSInstance) (node : AWSInstance) :
    membersOf k (records ++ [node]) =
      if groupOf node.Name = k then membersOf k records ++ [node] else membersOf k records := by
  by_cases h : groupOf node.Name = k <;> simp [membersOf, List.filter_append, List.filter_cons, h]

theorem Placed_initial : Placed [(UNNAMEDINSTANCE, none)] [] := by
  intro k
  by_cases h : k = UNNAMEDINSTANCE
  · simp [GoMap.get, membersOf, h]
  · simp [GoMap.get, membersOf, h, Ne.symm h]

theorem Placed_step (instances : InstanceList) (records : List AWSInstance) (node : AWSInstance)
    (h : Placed instances records) :
    Placed
      (match instances.get (groupOf node.Name) with
        | some s => instances.set (groupOf node.Name) (s.append node)
        | none => instances.set (groupOf node.Name) (some [node]))
      (records ++ [node]) := by
  intro k
  rw [membersOf_append]
  have hg := h (groupOf node.Name)
  have hk := h k
  by_cases e : groupOf node.Name = k
  · subst e
    simp only [if_true]
    by_cases hm : membersOf (groupOf node.Name) records = []
    · rw [hm] at hg
      simp only [if_true] at hg
      by_cases hu : groupOf node.Name = UNNAMEDINSTANCE
      · rw [if_pos hu] at hg
        rw [hg]
        simp [GoMap.get_set, Slice.append, hm]
      · rw [if_neg hu] at hg
        rw [hg]
        simp [GoMap.get_set, hm]
    · rw [if_neg hm] at hg
      rw [hg]
      simp [GoMap.get_set, Slice.append]
  · simp only [if_neg e]
    rw [← hk]
    cases hcase : GoMap.get instances (groupOf node.Name) with
    | none => simp [GoMap.get_set, e]
    | some s => simp [GoMap.get_set, e]

theorem keys_step (instances : InstanceList) (node : AWSInstance)
    (h : instances.keys.Nodup) :
    (match instances.get (groupOf node.Name) with
      | some s => instances.set (groupOf node.Name) (s.append node)
      | none => instances.set (groupOf node.Name) (some [node])).keys.Nodup := by
  cases GoMap.get instances (groupOf node.Name) with
  | none => exact GoMap.keys_set_nodup _ _ _ h
  | some s => exact GoMap.keys_set_nodup _ _ _ h

theorem GetBlockdeviceSizes_some (volumes : List Volume) (bds : List InstanceBlockDeviceMapping)
    (h : devicesResolve volumes bds) :
    GetBlockdeviceSizes volumes bds =
      some (sizeOfClass VolumeTypeGp2 (resolvedVolumes volumes bds),
            sizeOfClass VolumeTypeGp3 (resolvedVolumes volumes bds)) := by
  unfold GetBlockdeviceSizes
  rw [GetBlockdeviceSizesLoop_some volumes bds 0 0 h]
  simp

theorem instancesLoop_spec (volumes : List Volume) :
    ∀ (insts : List Instance) (counter : Nat) (instances : InstanceList)
      (records : List AWSInstance),
      (∀ i ∈ insts, devicesResolve volumes i.BlockDeviceMappings) →
      Placed instances records → instances.keys.Nodup →
      ∃ instances', instancesLoop volumes insts counter instances = some instances' ∧
        Placed instances' (records ++ recordsFrom volumes insts counter) ∧
        instances'.keys.Nodup := by
  intro insts
  induction insts with
  | nil =>
    intro counter instances records _ hp hn
    exact ⟨instances, rfl, by simpa [recordsFrom] using hp, hn⟩
  | cons i rest ih =>
    intro counter instances records hres hp hn
    have hi := GetBlockdeviceSizes_some volumes i.BlockDeviceMappings
      (hres i (List.mem_cons_self _ _))
    have hnode : recordOf volumes counter i =
        mkNode i (GetNameFromTags i.Tags (Sprintf_s_d UNNAMEDINSTANCE counter))
          (sizeOfClass VolumeTypeGp2 (resolvedVolumes volumes i.BlockDeviceMappings))
          (sizeOfClass VolumeTypeGp3 (resolvedVolumes volumes i.BlockDeviceMappings)) := by
      simp [recordOf, hi]
    have hname : (recordOf volumes counter i).Name =
        GetNameFromTags i.Tags (Sprintf_s_d UNNAMEDINSTANCE counter) := rfl
    have hp' := Placed_step instances records (recordOf volumes counter i) hp
    have hn' := keys_step instances (recordOf volumes counter i) hn
    obtain ⟨m', hm', hpl, hnd⟩ := ih (counter + 1) _ (records ++ [recordOf volumes counter i])
      (fun j hj => hres j (List.mem_cons_of_mem _ hj)) hp' hn'
    refine ⟨m', ?_, ?_, hnd⟩
    · rw [← hm']
      simp only [instancesLoop, hi]
      rw [hname, hnode]
      cases GoMap.get instances (groupOf (GetNameFromTags i.Tags
        (Sprintf_s_d UNNAMEDINSTANCE counter))) <;> rfl
    · simpa [recordsFrom, List.append_assoc] using hpl

theorem reservationsLoop_spec (volumes : List Volume) :
    ∀ (reservations : List Reservation) (instances : InstanceList)
      (records : List AWSInstance),
      inventoryResolves volumes reservations →
      Placed instances records → instances.keys.Nodup →
      ∃ instances', reservationsLoop volumes reservations instances = some instances' ∧
        Placed instances' (records ++ inventoryRecords volumes reservations) ∧
        instances'.keys.Nodup := by
  intro reservations
  induction reservations with
  | nil =>
    intro instances records _ hp hn
    exact ⟨instances, rfl, by simpa [inventoryRecords] using hp, hn⟩
  | cons n rest ih =>
    intro instances records hres hp hn
    obtain ⟨m1, h1, hp1, hn1⟩ := instancesLoop_spec volumes n.Instances 0 instances records
      (hres n (List.mem_cons_self _ _)) hp hn
    obtain ⟨m2, h2, hp2, hn2⟩ := ih m1 _
      (fun n' hn' => hres n' (List.mem_cons_of_mem _ hn')) hp1 hn1
    refine ⟨m2, ?_, ?_, hn2⟩
    · simp only [reservationsLoop, h1]
      exact h2
    · simpa [inventoryRecords, List.append_assoc] using hp2

/-- The result of `NewInstancesByGroup` on an inventory whose block devices
all resolve: every key has exactly its members, and the warning lists the
members of the reserved key when there are any. -/
theorem NewInstancesByGroup_spec (reservations : List Reservation) (volumes : List Volume)
    (h : inventoryResolves volumes reservations) :
    ∃ res, NewInstancesByGroup reservations volumes = some res ∧
      res.instances.keys.Nodup ∧
      (∀ k, res.instances.get k =
        if membersOf k (inventoryRecords volumes reservations) = [] then none
        else some (some (membersOf k (inventoryRecords volumes reservations)))) ∧
      res.warning =
        if membersOf UNNAMEDINSTANCE (inventoryRecords volumes reservations) = [] then none
        else some ((membersOf UNNAMEDINSTANCE (inventoryRecords volumes reservations)).length,
          membersOf UNNAMEDINSTANCE (inventoryRecords volumes reservations)) := by
  obtain ⟨m, hm, hp, hn⟩ := reservationsLoop_spec volumes reservations
    [(UNNAMEDINSTANCE, none)] [] h Placed_initial (by simp [GoMap.keys])
  simp only [List.nil_append] at hp
  have hu := hp UNNAMEDINSTANCE
  by_cases he : membersOf UNNAMEDINSTANCE (inventoryRecords volumes reservations) = []
  · rw [he] at hu
    simp only [if_true] at hu
    refine ⟨{ instances := m.delete UNNAMEDINSTANCE, warning := none }, ?_, ?_, ?_, ?_⟩
    · simp [NewInstancesByGroup, hm, hu]
    · exact GoMap.keys_delete_nodup _ _ hn
    · intro k
      rw [GoMap.get_delete, hp k]
      by_cases hk : UNNAMEDINSTANCE = k
      · subst hk
        simp [he]
      · simp [hk, Ne.symm hk]
    · simp [he]
  · rw [if_neg he] at hu
    refine ⟨Grouping.mk m (some
      ((membersOf UNNAMEDINSTANCE (inventoryRecords volumes reservations)).length,
        membersOf UNNAMEDINSTANCE (inventoryRecords volumes reservations))), ?_, hn, ?_, ?_⟩
    · simp [NewInstancesByGroup, hm, hu, he]
    · intro k
      rw [hp k]
      by_cases hk : membersOf k (inventoryRecords volumes reservations) = []
      · have hne : k ≠ UNNAMEDINSTANCE := by
          intro e
          rw [e] at hk
          exact he hk
        simp [hk, hne]
      · simp [hk]
    · simp [he]

theorem recordsFrom_mem (volumes : List Volume) (node : AWSInstance) :
    ∀ (insts : List Instance) (c0 : Nat),
      node ∈ recordsFrom volumes insts c0 ↔
        ∃ c i, insts[c]? = some i ∧ node = recordOf volumes (c0 + c) i := by
  intro insts
  induction insts with
  | nil => intro c0; simp [recordsFrom]
  | cons j rest ih =>
    intro c0
    simp only [recordsFrom, List.mem_cons, ih]
    constructor
    · rintro (h | ⟨c, i, hc, hn⟩)
      · exact ⟨0, j, by simp, by simpa using h⟩
      · exact ⟨c + 1, i, by simpa using hc, by rw [hn]; congr 1; omega⟩
    · rintro ⟨c, i, hc, hn⟩
      cases c with
      | zero =>
        left
        simp only [List.getElem?_cons_zero, Option.some.injEq] at hc
        rw [hn, hc]
        rfl
      | succ c =>
        right
        refine ⟨c, i, by simpa using hc, ?_⟩
        rw [hn]
        congr 1
        omega

theorem inventoryRecords_mem (volumes : List Volume) (node : AWSInstance) :
    ∀ (reservations : List Reservation),
      node ∈ inventoryRecords volumes reservations ↔
        ∃ n ∈ reservations, ∃ c i, n.Instances[c]? = some i ∧ node = recordOf volumes c i := by
  intro reservations
  induction reservations with
  | nil => simp [inventoryRecords]
  | cons n rest ih =>
    simp only [inventoryRecords, List.mem_append, ih, recordsFrom_mem, Nat.zero_add,
      List.mem_cons, exists_eq_or_imp]

theorem mem_membersOf (k : String) (records : List AWSInstance) (node : AWSInstance) :
    node ∈ membersOf k records ↔ node ∈ records ∧ groupOf node.Name = k := by
  simp [membersOf]

theorem GoMap.mem_of_get {V : Type} (m : GoMap V) (k : String) (v : V)
    (h : m.get k = some v) : (k, v) ∈ m := by
  induction m with
  | nil => simp [GoMap.get] at h
  | cons kv rest ih =>
    obtain ⟨k0, v0⟩ := kv
    by_cases e : k0 = k
    · simp only [GoMap.get, e, if_true, Option.some.injEq] at h
      simp [e, h]
    · simp only [GoMap.get, e, if_false] at h
      exact List.mem_cons_of_mem _ (ih h)

theorem sizeOfClass_add (vs : List Volume)
    (h : ∀ v ∈ vs, v.VolumeType = VolumeTypeGp2 ∨ v.VolumeType = VolumeTypeGp3) :
    sizeOfClass VolumeTypeGp2 vs + sizeOfClass VolumeTypeGp3 vs = (vs.map (fun v => v.Size)).sum := by
  induction vs with
  | nil => simp [sizeOfClass]
  | cons v rest ih =>
    have ih' := ih (fun w hw => h w (List.mem_cons_of_mem _ hw))
    have hg : ¬ VolumeTypeGp3 = VolumeTypeGp2 := by decide
    have hg' : ¬ VolumeTypeGp2 = VolumeTypeGp3 := by decide
    simp only [sizeOfClass] at ih' ⊢
    rcases h v (List.mem_cons_self _ _) with h2 | h3
    · simp only [List.filter_cons, h2, hg', decide_True, decide_False, if_true, List.map_cons,
        List.sum_cons, Bool.false_eq_true, if_false]
      rw [← ih']
      ring
    · simp only [List.filter_cons, h3, hg, decide_True, decide_False, if_true, List.map_cons,
        List.sum_cons, Bool.false_eq_true, if_false]
      rw [← ih']
      ring

theorem resolvedVolumes_of_resolve (volumes : List Volume) :
    ∀ (bds : List InstanceBlockDeviceMapping), devicesResolve volumes bds →
      (resolvedVolumes volumes bds).length = bds.length ∧
      ∀ v ∈ resolvedVolumes volumes bds,
        v.VolumeType = VolumeTypeGp2 ∨ v.VolumeType = VolumeTypeGp3 := by
  intro bds
  induction bds with
  | nil => intro _; simp [resolvedVolumes]
  | cons b rest ih =>
    intro h
    obtain ⟨v, hv, hcls⟩ := h b (List.mem_cons_self _ _)
    obtain ⟨hlen, hall⟩ := ih (fun b' hb' => h b' (List.mem_cons_of_mem _ hb'))
    have hres : resolvedVolumes volumes (b :: rest) = v :: resolvedVolumes volumes rest := by
      simp [resolvedVolumes, List.filterMap_cons, hv]
    rw [hres]
    refine ⟨by simp [hlen], ?_⟩
    intro w hw
    rcases List.mem_cons.mp hw with e | e
    · rw [e]; exact hcls
    · exact hall w e

/-! ## Group key -/

/-- C1, counterexample: the name "1node" has no trailing digit, so removing its
trailing digit run leaves it unchanged, yet its group key is "node". -/
theorem groupOf_leading_digit_removed :
    String.mk ("1node".data.rdropWhile Char.isDigit) = "1node" ∧
      groupOf "1node" = "node" ∧ groupOf "1node" ≠ "1node" := by
  decide

/-- C1, amended: the group key of a name is the name without its maximal
leading run and its maximal trailing run of ASCII decimal digits, nothing else
changed: the name is a run of digits, then the key, then a run of digits, and
the key neither starts nor ends with a digit.  So "node1a2" gives "node1a",
"node12" gives "node", "1node" gives "node", and a name that neither starts nor
ends with a digit is its own group key. -/
theorem groupOf_strips_both_ends (name : String) :
    (∃ pre suf : List Char, name.data = pre ++ (groupOf name).data ++ suf ∧
      (∀ c ∈ pre, c.isDigit = true) ∧ (∀ c ∈ suf, c.isDigit = true) ∧
      (∀ c, (groupOf name).data.head? = some c → c.isDigit = false) ∧
      (∀ c, (groupOf name).data.getLast? = some c → c.isDigit = false)) ∧
    ((∀ c, name.data.head? = some c → c.isDigit = false) →
      (∀ c, name.data.getLast? = some c → c.isDigit = false) → groupOf name = name) ∧
    groupOf "node1a2" = "node1a" ∧ groupOf "node12" = "node" ∧
    groupOf "validator12" = "validator" ∧ groupOf "1node" = "node" := by
  refine ⟨?_, ?_, by decide, by decide, by decide, by decide⟩
  · obtain ⟨pre, suf, h1, h2, h3, h4, h5⟩ := Trim_decompose name "0123456789"
    refine ⟨pre, suf, h1, ?_, ?_, ?_, ?_⟩
    · intro c hc; rw [← inCutset_digits]; exact h2 c hc
    · intro c hc; rw [← inCutset_digits]; exact h3 c hc
    · intro c hc; rw [← inCutset_digits]; exact h4 c hc
    · intro c hc; rw [← inCutset_digits]; exact h5 c hc
  · intro hh hl
    have e1 : name.data.rdropWhile (inCutset "0123456789") = name.data := by
      rw [List.rdropWhile_eq_self_iff]
      intro hne
      have := hl _ (List.getLast?_eq_getLast _ hne)
      rw [inCutset_digits, this]
      simp
    have e2 : name.data.dropWhile (inCutset "0123456789") = name.data := by
      rw [List.dropWhile_eq_self_iff]
      intro hpos
      have hh' : ∀ (l : List Char) (hp : 0 < l.length), l.head? = some (l.get ⟨0, hp⟩) := by
        intro l hp
        cases l with
        | nil => simp at hp
        | cons a l => simp
      have hh' := hh' name.data hpos
      have := hh _ hh'
      rw [inCutset_digits, this]
      simp
    show String.mk (List.dropWhile (inCutset "0123456789")
      (name.data.rdropWhile (inCutset "0123456789"))) = name
    rw [e1, e2]

/-- C1, amended, at the name "node": it neither starts nor ends with a digit
and is its own group key. -/
theorem groupOf_strips_both_ends_witness : groupOf "node" = "node" :=
  (groupOf_strips_both_ends "node").2.1 (by decide) (by decide)

/-! ## Name resolution -/

/-- C5: `GetNameFromTags` returns the value of the first tag, in list order,
whose key is "Name" and whose value is non-empty, and the fallback string
unchanged when there is no such tag (no Name tag, or only Name tags with empty
values). -/
theorem GetNameFromTags_first_nonempty_Name (tags : List Tag) (defaultName : String) :
    GetNameFromTags tags defaultName =
      ((tags.find? (fun t => decide (t.Key = "Name") && decide (t.Value ≠ ""))).map
        (fun t => t.Value)).getD defaultName := by
  rw [GetNameFromTags_eq_find]
  cases tags.find? (fun t => decide (t.Key = "Name") && decide (t.Value ≠ "")) <;> rfl

/-! ## Block devices -/

/-- C6: when every mapping resolves to a volume of class gp2 or gp3,
`GetBlockdeviceSizes` returns the sum of the sizes of the resolved gp2 volumes
and the sum of the sizes of the resolved gp3 volumes, one term per mapping; the
two add up to the sum of the sizes of all resolved volumes; both are 0 for an
empty mapping list. -/
theorem GetBlockdeviceSizes_sums (volumes : List Volume)
    (bds : List InstanceBlockDeviceMapping) (h : devicesResolve volumes bds) :
    GetBlockdeviceSizes volumes bds =
        some (sizeOfClass VolumeTypeGp2 (resolvedVolumes volumes bds),
              sizeOfClass VolumeTypeGp3 (resolvedVolumes volumes bds)) ∧
      (resolvedVolumes volumes bds).length = bds.length ∧
      sizeOfClass VolumeTypeGp2 (resolvedVolumes volumes bds) +
          sizeOfClass VolumeTypeGp3 (resolvedVolumes volumes bds) =
        ((resolvedVolumes volumes bds).map (fun v => v.Size)).sum ∧
      GetBlockdeviceSizes volumes [] = some (0, 0) := by
  obtain ⟨hlen, hall⟩ := resolvedVolumes_of_resolve volumes bds h
  exact ⟨GetBlockdeviceSizes_some volumes bds h, hlen, sizeOfClass_add _ hall, rfl⟩

/-- C6 at `exampleMappings`: `vol-1` (gp2, 8) counts twice, `vol-2` (gp3, 100)
once. -/
theorem GetBlockdeviceSizes_sums_witness :
    devicesResolve exampleVolumes exampleMappings ∧
      GetBlockdeviceSizes exampleVolumes exampleMappings = some (16, 100) := by
  have h : devicesResolve exampleVolumes exampleMappings := by
    intro b hb
    simp only [exampleMappings, List.mem_cons, List.mem_singleton, List.not_mem_nil,
      or_false] at hb
    rcases hb with rfl | rfl | rfl
    · exact ⟨⟨"vol-1", "gp2", 8⟩, by decide, Or.inl (by decide)⟩
    · exact ⟨⟨"vol-2", "gp3", 100⟩, by decide, Or.inr (by decide)⟩
    · exact ⟨⟨"vol-1", "gp2", 8⟩, by decide, Or.inl (by decide)⟩
  refine ⟨h, ?_⟩
  rw [(GetBlockdeviceSizes_sums exampleVolumes exampleMappings h).1]
  decide

/-- C7: `GetBlockdeviceSizes` panics exactly when some mapping names a volume
id that no volume of the inventory has, or the first volume of the inventory
with that id has a storage class other than gp2 and gp3. -/
theorem GetBlockdeviceSizes_panics_iff (volumes : List Volume)
    (bds : List InstanceBlockDeviceMapping) :
    GetBlockdeviceSizes volumes bds = none ↔
      ∃ b ∈ bds, (∀ v ∈ volumes, v.VolumeId ≠ b.Ebs.VolumeId) ∨
        ∃ v, volumes.find? (fun v => decide (v.VolumeId = b.Ebs.VolumeId)) = some v ∧
          v.VolumeType ≠ VolumeTypeGp2 ∧ v.VolumeType ≠ VolumeTypeGp3 := by
  unfold GetBlockdeviceSizes
  rw [GetBlockdeviceSizesLoop_none]
  unfold devicesResolve
  push_neg
  constructor
  · rintro ⟨b, hb, hbad⟩
    refine ⟨b, hb, ?_⟩
    cases hv : GetVolumeById volumes b.Ebs.VolumeId with
    | none => exact Or.inl ((GetVolumeById_eq_none _ _).mp hv)
    | some v =>
      right
      exact ⟨v, by rw [← GetVolumeById_eq_find]; exact hv, hbad v hv⟩
  · rintro ⟨b, hb, hbad⟩
    refine ⟨b, hb, ?_⟩
    intro v hv
    rcases hbad with hnone | ⟨w, hw, hcls⟩
    · rw [(GetVolumeById_eq_none _ _).mpr hnone] at hv
      exact absurd hv (by simp)
    · rw [GetVolumeById_eq_find, hw] at hv
      rw [← Option.some.inj hv]
      exact hcls

/-- C7 at a mapping that names a volume id absent from `exampleVolumes`. -/
theorem GetBlockdeviceSizes_panics_iff_witness :
    GetBlockdeviceSizes exampleVolumes [⟨⟨"vol-1"⟩⟩, ⟨⟨"vol-404"⟩⟩] = none :=
  (GetBlockdeviceSizes_panics_iff exampleVolumes [⟨⟨"vol-1"⟩⟩, ⟨⟨"vol-404"⟩⟩]).mpr
    ⟨⟨⟨"vol-404"⟩⟩, by simp, Or.inl (by decide)⟩

/-! ## Grouping -/

theorem count_membersOf (k : String) (records : List AWSInstance) (node : AWSInstance) :
    (membersOf k records).count node =
      if groupOf node.Name = k then records.count node else 0 := by
  by_cases h : groupOf node.Name = k
  · rw [if_pos h]
    exact List.count_filter (by simpa using h)
  · rw [if_neg h]
    apply List.count_eq_zero.mpr
    intro hm
    exact h ((mem_membersOf _ _ _).mp hm).2

theorem scenarioInventory_resolves : inventoryResolves [] scenarioInventory := by
  intro n hn i hi b hb
  simp only [scenarioInventory, List.mem_cons, List.mem_singleton, List.not_mem_nil,
    or_false] at hn
  rcases hn with rfl | rfl
  · simp only [List.mem_cons, List.mem_singleton, List.not_mem_nil, or_false] at hi
    rcases hi with rfl | rfl <;> simp [exampleInstance] at hb
  · simp only [List.mem_cons, List.mem_singleton, List.not_mem_nil, or_false] at hi
    rcases hi with rfl
    simp [exampleInstance] at hb

theorem singleton_resolves (i : Instance) (h : i.BlockDeviceMappings = []) :
    inventoryResolves [] [⟨[i]⟩] := by
  intro n hn j hj b hb
  simp only [List.mem_singleton] at hn
  subst hn
  simp only [List.mem_singleton] at hj
  subst hj
  rw [h] at hb
  simp at hb

theorem GetNameFromTags_default (tags : List Tag) (defaultName : String)
    (h : ∀ t ∈ tags, t.Key = "Name" → t.Value = "") :
    GetNameFromTags tags defaultName = defaultName := by
  rw [GetNameFromTags_eq_find]
  have hnone : tags.find? (fun t => decide (t.Key = "Name") && decide (t.Value ≠ "")) = none := by
    rw [List.find?_eq_none]
    intro t ht
    simp only [Bool.and_eq_true, decide_eq_true_eq, not_and, ne_eq, not_not]
    exact h t ht
  rw [hnone]

/-- C4: on an inventory whose block devices all resolve, `NewInstancesByGroup`
returns a grouping with distinct keys in which each key maps to exactly the
non-empty list, in inventory order, of the records whose resolved name has that
group key, and no other key is present; so a record is in the group of its own
key as often as it is in the inventory, and in no other group.  On the scenario
inventory the result has exactly the group "val" with the records of "val1" and
"val2" and the group "other" with the record of "other". -/
theorem NewInstancesByGroup_groups (reservations : List Reservation) (volumes : List Volume)
    (h : inventoryResolves volumes reservations) :
    (∃ res, NewInstancesByGroup reservations volumes = some res ∧
      res.instances.keys.Nodup ∧
      (∀ k, res.instances.get k =
        if membersOf k (inventoryRecords volumes reservations) = [] then none
        else some (some (membersOf k (inventoryRecords volumes reservations)))) ∧
      (∀ k node, (Slice.elems (res.instances.get k).join).count node =
        if groupOf node.Name = k then (inventoryRecords volumes reservations).count node
        else 0)) ∧
    NewInstancesByGroup scenarioInventory [] =
      some ⟨[("val", some [exampleRecord "i-1" "val1" "t3a.medium",
                           exampleRecord "i-2" "val2" "t3a.medium"]),
             ("other", some [exampleRecord "i-3" "other" "t3a.small"])], none⟩ := by
  refine ⟨?_, by decide⟩
  obtain ⟨res, hres, hnd, hget, _⟩ := NewInstancesByGroup_spec reservations volumes h
  refine ⟨res, hres, hnd, hget, ?_⟩
  intro k node
  rw [hget k, ← count_membersOf]
  by_cases hm : membersOf k (inventoryRecords volumes reservations) = []
  · simp [hm, Slice.elems]
  · simp [hm, Slice.elems]

/-- C4 on the scenario inventory: the group "val" holds the records of "val1"
and "val2", in this order. -/
theorem NewInstancesByGroup_groups_witness :
    inventoryResolves [] scenarioInventory ∧
      ∃ res, NewInstancesByGroup scenarioInventory [] = some res ∧
        res.instances.get "val" =
          some (some [exampleRecord "i-1" "val1" "t3a.medium",
                      exampleRecord "i-2" "val2" "t3a.medium"]) := by
  refine ⟨scenarioInventory_resolves, ?_⟩
  obtain ⟨res, hres, _, hget, _⟩ :=
    (NewInstancesByGroup_groups scenarioInventory [] scenarioInventory_resolves).1
  refine ⟨res, hres, ?_⟩
  rw [hget "val"]
  decide

/-- C2, counterexample: on an inventory of one instance without tags the
returned grouping has the key "unknown", with the record of that instance. -/
theorem NewInstancesByGroup_keeps_unnamed :
    ∃ res, NewInstancesByGroup untaggedInventory [] = some res ∧
      res.instances.get UNNAMEDINSTANCE =
        some (some [exampleRecord "i-9" "unknown0" "t3a.small"]) ∧
      res.warning = some (1, [exampleRecord "i-9" "unknown0" "t3a.small"]) :=
  ⟨⟨[("unknown", some [exampleRecord "i-9" "unknown0" "t3a.small"])],
     some (1, [exampleRecord "i-9" "unknown0" "t3a.small"])⟩, by decide, by decide, rfl⟩

/-- C2, amended: on an inventory whose block devices all resolve, the returned
grouping has no entry under "unknown" exactly when no record has the group key
"unknown", and then no warning is printed; otherwise the entry is kept, holds
those records, and the warning lists them.  An instance without a Name tag of
non-empty value has the group key "unknown", so it appears in the returned
grouping, under that key. -/
theorem NewInstancesByGroup_unnamed_bucket (reservations : List Reservation)
    (volumes : List Volume) (h : inventoryResolves volumes reservations) :
    ∃ res, NewInstancesByGroup reservations volumes = some res ∧
      (res.instances.get UNNAMEDINSTANCE = none ↔
        ∀ node ∈ inventoryRecords volumes reservations, groupOf node.Name ≠ UNNAMEDINSTANCE) ∧
      (res.instances.get UNNAMEDINSTANCE = none → res.warning = none) ∧
      (res.instances.get UNNAMEDINSTANCE ≠ none →
        res.instances.get UNNAMEDINSTANCE =
          some (some (membersOf UNNAMEDINSTANCE (inventoryRecords volumes reservations))) ∧
        res.warning =
          some ((membersOf UNNAMEDINSTANCE (inventoryRecords volumes reservations)).length,
            membersOf UNNAMEDINSTANCE (inventoryRecords volumes reservations))) ∧
      (∀ n ∈ reservations, ∀ c i, n.Instances[c]? = some i →
        (∀ t ∈ i.Tags, t.Key = "Name" → t.Value = "") →
        recordOf volumes c i ∈ Slice.elems (res.instances.get UNNAMEDINSTANCE).join) := by
  obtain ⟨res, hres, _, hget, hwarn⟩ := NewInstancesByGroup_spec reservations volumes h
  have hu := hget UNNAMEDINSTANCE
  refine ⟨res, hres, ?_, ?_, ?_, ?_⟩
  · rw [hu]
    by_cases hm : membersOf UNNAMEDINSTANCE (inventoryRecords volumes reservations) = []
    · simp only [hm, if_true, true_iff]
      intro node hnode hg
      have : node ∈ membersOf UNNAMEDINSTANCE (inventoryRecords volumes reservations) :=
        (mem_membersOf _ _ _).mpr ⟨hnode, hg⟩
      rw [hm] at this
      simp at this
    · simp only [hm, if_false]
      refine ⟨fun hc => absurd hc (by simp), fun hall => absurd ?_ hm⟩
      apply List.eq_nil_iff_forall_not_mem.mpr
      intro node hnode
      obtain ⟨h1, h2⟩ := (mem_membersOf _ _ _).mp hnode
      exact hall node h1 h2
  · intro hnone
    rw [hu] at hnone
    by_cases hm : membersOf UNNAMEDINSTANCE (inventoryRecords volumes reservations) = []
    · rw [hwarn, if_pos hm]
    · rw [if_neg hm] at hnone
      simp at hnone
  · intro hsome
    by_cases hm : membersOf UNNAMEDINSTANCE (inventoryRecords volumes reservations) = []
    · rw [hu, if_pos hm] at hsome
      exact absurd rfl hsome
    · rw [hu, hwarn, if_neg hm, if_neg hm]
      exact ⟨rfl, rfl⟩
  · intro n hn c i hci htags
    have hmem : recordOf volumes c i ∈ inventoryRecords volumes reservations :=
      (inventoryRecords_mem volumes _ reservations).mpr ⟨n, hn, c, i, hci, rfl⟩
    have hname : (recordOf volumes c i).Name = Sprintf_s_d UNNAMEDINSTANCE c :=
      GetNameFromTags_default i.Tags _ htags
    have hgroup : groupOf (recordOf volumes c i).Name = UNNAMEDINSTANCE := by
      rw [hname]
      exact groupOf_unnamed c
    have hin : recordOf volumes c i ∈
        membersOf UNNAMEDINSTANCE (inventoryRecords volumes reservations) :=
      (mem_membersOf _ _ _).mpr ⟨hmem, hgroup⟩
    have hm : membersOf UNNAMEDINSTANCE (inventoryRecords volumes reservations) ≠ [] :=
      List.ne_nil_of_mem hin
    rw [hu, if_neg hm]
    exact hin

/-- C2, amended, on the inventory of one instance without tags: its record is
in the returned grouping under "unknown". -/
theorem NewInstancesByGroup_unnamed_bucket_witness :
    inventoryResolves [] untaggedInventory ∧
      ∃ res, NewInstancesByGroup untaggedInventory [] = some res ∧
        recordOf [] 0 (exampleInstance "i-9" [] "t3a.small") ∈
          Slice.elems (res.instances.get UNNAMEDINSTANCE).join := by
  have h : inventoryResolves [] untaggedInventory := singleton_resolves _ rfl
  refine ⟨h, ?_⟩
  obtain ⟨res, hres, _, _, _, hin⟩ := NewInstancesByGroup_unnamed_bucket untaggedInventory [] h
  exact ⟨res, hres, hin ⟨[exampleInstance "i-9" [] "t3a.small"]⟩ (by simp [untaggedInventory])
    0 _ rfl (by simp [exampleInstance])⟩

/-- C3, counterexample: on an inventory of one instance whose Name tag is
"unknown7", the record of that instance is placed under "unknown". -/
theorem NewInstancesByGroup_tagged_under_unnamed :
    (∃ t ∈ (exampleInstance "i-7" [⟨"Name", "unknown7"⟩] "t3a.small").Tags, t.Key = "Name") ∧
      ∃ res, NewInstancesByGroup taggedUnknownInventory [] = some res ∧
        res.instances.get UNNAMEDINSTANCE =
          some (some [recordOf [] 0 (exampleInstance "i-7" [⟨"Name", "unknown7"⟩] "t3a.small")]) :=
  ⟨⟨⟨"Name", "unknown7"⟩, by simp [exampleInstance], rfl⟩,
    ⟨[("unknown", some [exampleRecord "i-7" "unknown7" "t3a.small"])],
      some (1, [exampleRecord "i-7" "unknown7" "t3a.small"])⟩, by decide, by decide⟩

/-- C3, amended: on an inventory whose block devices all resolve, every record
under "unknown" is the record of an instance of the inventory that either has
no Name tag of non-empty value, or whose first Name tag of non-empty value
gives "unknown" once its leading and trailing digits are removed (as "unknown",
"unknown7" and "7unknown" do); an instance whose first non-empty Name value
gives another key is never placed there. -/
theorem NewInstancesByGroup_unnamed_members (reservations : List Reservation)
    (volumes : List Volume) (h : inventoryResolves volumes reservations) :
    ∃ res, NewInstancesByGroup reservations volumes = some res ∧
      ∀ node ∈ Slice.elems (res.instances.get UNNAMEDINSTANCE).join,
        ∃ n ∈ reservations, ∃ c i, n.Instances[c]? = some i ∧ node = recordOf volumes c i ∧
          ((∀ t ∈ i.Tags, t.Key = "Name" → t.Value = "") ∨
            ∃ t, i.Tags.find? (fun t => decide (t.Key = "Name") && decide (t.Value ≠ "")) = some t ∧
              groupOf t.Value = UNNAMEDINSTANCE) := by
  obtain ⟨res, hres, _, hget, _⟩ := NewInstancesByGroup_spec reservations volumes h
  refine ⟨res, hres, ?_⟩
  intro node hnode
  rw [hget UNNAMEDINSTANCE] at hnode
  by_cases hm : membersOf UNNAMEDINSTANCE (inventoryRecords volumes reservations) = []
  · simp [hm, Slice.elems] at hnode
  · simp only [hm, if_false, Option.join, Option.bind, Slice.elems] at hnode
    obtain ⟨hrec, hgroup⟩ := (mem_membersOf _ _ _).mp hnode
    obtain ⟨n, hn, c, i, hci, hnode_eq⟩ := (inventoryRecords_mem volumes _ reservations).mp hrec
    refine ⟨n, hn, c, i, hci, hnode_eq, ?_⟩
    have hname : node.Name = GetNameFromTags i.Tags (Sprintf_s_d UNNAMEDINSTANCE c) := by
      rw [hnode_eq]
      rfl
    rw [hname, GetNameFromTags_eq_find] at hgroup
    cases hf : i.Tags.find? (fun t => decide (t.Key = "Name") && decide (t.Value ≠ "")) with
    | none =>
      left
      intro t ht hkey
      have := List.find?_eq_none.mp hf t ht
      simpa [hkey] using this
    | some t =>
      right
      rw [hf] at hgroup
      exact ⟨t, rfl, hgroup⟩

/-- C3, amended, on the inventory of one instance tagged "unknown7". -/
theorem NewInstancesByGroup_unnamed_members_witness :
    inventoryResolves [] taggedUnknownInventory ∧
      ∃ res, NewInstancesByGroup taggedUnknownInventory [] = some res ∧
        ∀ node ∈ Slice.elems (res.instances.get UNNAMEDINSTANCE).join,
          ∃ n ∈ taggedUnknownInventory, ∃ c i, n.Instances[c]? = some i ∧
            node = recordOf [] c i ∧
            ((∀ t ∈ i.Tags, t.Key = "Name" → t.Value = "") ∨
              ∃ t, i.Tags.find? (fun t => decide (t.Key = "Name") && decide (t.Value ≠ ""))
                  = some t ∧ groupOf t.Value = UNNAMEDINSTANCE) :=
  ⟨singleton_resolves _ rfl,
    NewInstancesByGroup_unnamed_members taggedUnknownInventory [] (singleton_resolves _ rfl)⟩

/-! ## Cost model -/

theorem costTable_keys : instanceCostsInCanada.keys = costTable.map (fun kv => kv.1) := by
  decide

theorem costTable_values : ∀ kv ∈ costTable,
    instanceCostsInCanada.get kv.1 = some kv.2.1 ∧
      Float64.mul (Float64.mul kv.2.1 (Float64.ofRatio 24 1)) (Float64.ofRatio 30 1) = kv.2.2 := by
  decide!

theorem costTable_bound : ∀ kv ∈ costTable,
    kv.2.1.isFinite = true ∧ kv.2.2.isFinite = true ∧
      |kv.2.2.toRat - 720 * kv.2.1.toRat| ≤ 720 * kv.2.1.toRat / 2 ^ 52 := by
  intro kv hkv
  simp only [costTable, List.mem_cons, List.mem_singleton, List.not_mem_nil, or_false] at hkv
  rcases hkv with rfl | rfl | rfl | rfl | rfl | rfl | rfl | rfl | rfl | rfl | rfl | rfl | rfl | rfl | rfl | rfl | rfl | rfl | rfl | rfl | rfl | rfl
  all_goals
    refine ⟨rfl, rfl, ?_⟩
    rw [abs_le]
    constructor <;> norm_num [Float64.toRat]

/-- C8, counterexample: for the table entry "m6i.4xlarge" the 30-day cost
is neither the binary64 product of the hourly price and 720 nor exactly 720
times the hourly price. -/
theorem GetInstanceCostFor30Days_m6i_4xlarge :
    GetInstanceCostForHour (exampleRecord "i-1" "val1" "m6i.4xlarge") =
        some (Float64.fin false 7710162562058289 (-53)) ∧
      GetInstanceCostFor30Days (exampleRecord "i-1" "val1" "m6i.4xlarge") =
        some (Float64.fin false 5421208051447235 (-43)) ∧
      Float64.mul (Float64.fin false 7710162562058289 (-53)) (Float64.ofRatio 720 1) =
        Float64.fin false 5421208051447234 (-43) ∧
      (Float64.fin false 5421208051447235 (-43)).toRat ≠
        720 * (Float64.fin false 7710162562058289 (-53)).toRat := by
  refine ⟨by decide!, by decide!, by decide!, ?_⟩
  norm_num [Float64.toRat]

/-- C8, amended: for every instance type of the price table,
`GetInstanceCostFor30Days` returns the hourly table price multiplied by 24 and
then by 30 in binary64 arithmetic, each product rounded to nearest; the result
is finite and differs from 720 times the hourly price by at most that product
divided by 2^52. -/
theorem GetInstanceCostFor30Days_listed (s : AWSInstance)
    (h : s.Type_ ∈ instanceCostsInCanada.keys) :
    ∃ hour cost, GetInstanceCostForHour s = some hour ∧
      (s.Type_, hour) ∈ instanceCostsInCanada ∧
      GetInstanceCostFor30Days s = some cost ∧
      cost = Float64.mul (Float64.mul hour (Float64.ofRatio 24 1)) (Float64.ofRatio 30 1) ∧
      hour.isFinite = true ∧ cost.isFinite = true ∧
      |cost.toRat - 720 * hour.toRat| ≤ 720 * hour.toRat / 2 ^ 52 := by
  rw [costTable_keys] at h
  obtain ⟨kv, hkv, hkey⟩ := List.mem_map.mp h
  obtain ⟨hget, hmul⟩ := costTable_values kv hkv
  obtain ⟨hf1, hf2, hbound⟩ := costTable_bound kv hkv
  rw [hkey] at hget
  refine ⟨kv.2.1, kv.2.2, hget, GoMap.mem_of_get _ _ _ hget, ?_, hmul.symm, hf1, hf2, hbound⟩
  simp only [GetInstanceCostFor30Days, GetInstanceCostForHour] at hget ⊢
  rw [hget]
  exact congrArg some hmul

/-- C8, amended, at a record of type "t3a.medium". -/
theorem GetInstanceCostFor30Days_listed_witness :
    "t3a.medium" ∈ instanceCostsInCanada.keys ∧
      ∃ hour cost, GetInstanceCostForHour (exampleRecord "i-1" "val1" "t3a.medium") = some hour ∧
        ("t3a.medium", hour) ∈ instanceCostsInCanada ∧
        GetInstanceCostFor30Days (exampleRecord "i-1" "val1" "t3a.medium") = some cost ∧
        cost = Float64.mul (Float64.mul hour (Float64.ofRatio 24 1)) (Float64.ofRatio 30 1) ∧
        hour.isFinite = true ∧ cost.isFinite = true ∧
        |cost.toRat - 720 * hour.toRat| ≤ 720 * hour.toRat / 2 ^ 52 :=
  ⟨by decide, GetInstanceCostFor30Days_listed (exampleRecord "i-1" "val1" "t3a.medium") (by decide)⟩

/-- C9: `GetInstanceCostForHour`, and with it `GetInstanceCostFor30Days`,
panics exactly when the record's type is not one of the 22 distinct keys of the
price table; for a listed type the hourly price returned is the price of that
entry, and no price is returned that is not an entry of the table. -/
theorem GetInstanceCostForHour_panics_iff (s : AWSInstance) :
    (GetInstanceCostForHour s = none ↔ s.Type_ ∉ instanceCostsInCanada.keys) ∧
      (GetInstanceCostFor30Days s = none ↔ s.Type_ ∉ instanceCostsInCanada.keys) ∧
      instanceCostsInCanada.keys.length = 22 ∧ instanceCostsInCanada.keys.Nodup ∧
      (∀ price, GetInstanceCostForHour s = some price ↔
        (s.Type_, price) ∈ instanceCostsInCanada) := by
  have hnd : instanceCostsInCanada.keys.Nodup := by decide
  have h1 : GetInstanceCostForHour s = none ↔ s.Type_ ∉ instanceCostsInCanada.keys :=
    GoMap.get_eq_none _ _
  refine ⟨h1, ?_, by decide, hnd, ?_⟩
  · rw [← h1]
    unfold GetInstanceCostFor30Days
    cases GetInstanceCostForHour s <;> simp
  · intro price
    exact ⟨GoMap.mem_of_get _ _ _, GoMap.get_of_mem _ _ _ hnd⟩

/-- C9 at a record of type "t3a.micro", which the table does not list. -/
theorem GetInstanceCostForHour_panics_iff_witness :
    GetInstanceCostForHour (exampleRecord "i-1" "val1" "t3a.micro") = none ∧
      GetInstanceCostFor30Days (exampleRecord "i-1" "val1" "t3a.micro") = none :=
  ⟨(GetInstanceCostForHour_panics_iff (exampleRecord "i-1" "val1" "t3a.micro")).1.mpr (by decide),
    (GetInstanceCostForHour_panics_iff (exampleRecord "i-1" "val1" "t3a.micro")).2.1.mpr
      (by decide)⟩

/-! ## float64: rounding -/

namespace Float64

theorem bitLenAux_zero (fuel : Nat) : bitLenAux fuel 0 = 0 := by
  cases fuel <;> simp [bitLenAux]

theorem bitLenAux_spec : ∀ (fuel n : Nat), n ≤ fuel →
    n < 2 ^ bitLenAux fuel n ∧ (0 < n → 2 ^ bitLenAux fuel n ≤ 2 * n) := by
  intro fuel
  induction fuel with
  | zero =>
    intro n hn
    have : n = 0 := by omega
    subst this
    simp [bitLenAux]
  | succ fuel ih =>
    intro n hn
    by_cases h0 : n = 0
    · subst h0
      simp [bitLenAux]
    · have hle : n / 2 ≤ fuel := by omega
      obtain ⟨h1, h2⟩ := ih (n / 2) hle
      have e : bitLenAux (fuel + 1) n = bitLenAux fuel (n / 2) + 1 := by
        simp [bitLenAux, h0]
      rw [e, pow_succ]
      refine ⟨by omega, fun _ => ?_⟩
      by_cases hh : n / 2 = 0
      · rw [hh, bitLenAux_zero]
        simp
        omega
      · have := h2 (by omega)
        omega

/-- The bit length of a positive number `n`: `2^(bitLen n - 1) ≤ n < 2^(bitLen n)`. -/
theorem bitLen_spec (n : Nat) (h : 0 < n) :
    n < 2 ^ bitLen n ∧ 2 ^ bitLen n ≤ 2 * n :=
  ⟨(bitLenAux_spec n n (le_refl n)).1, (bitLenAux_spec n n (le_refl n)).2 h⟩


theorem scaleFrac_pos (n d : Nat) (e : Int) (hd : 0 < d) : 0 < (scaleFrac n d e).2 := by
  unfold scaleFrac
  split
  · exact Nat.mul_pos hd (Nat.pos_pow_of_pos _ (by decide))
  · exact hd

theorem scaleFrac_val (n d : Nat) (e : Int) :
    ((scaleFrac n d e).1 : ℚ) / ((scaleFrac n d e).2 : ℚ) = (n : ℚ) / d / 2 ^ e := by
  unfold scaleFrac
  by_cases h : 0 ≤ e
  · rw [if_pos h]
    obtain ⟨k, rfl⟩ := Int.eq_ofNat_of_zero_le h
    simp only [Int.toNat_ofNat, Nat.cast_mul, Nat.cast_pow, Nat.cast_ofNat, zpow_natCast]
    rw [div_div]
  · rw [if_neg h]
    obtain ⟨k, hk⟩ := Int.exists_eq_neg_ofNat (le_of_lt (not_le.mp h))
    subst hk
    simp only [neg_neg, Int.toNat_ofNat, Nat.cast_mul, Nat.cast_pow, Nat.cast_ofNat, zpow_neg,
      zpow_natCast]
    field_simp

/-- The quotient is the floor of `N / D`, and the mantissa selected from the
quotient and the remainder is within 1/2 of `N / D`. -/
theorem nearest_spec (N D : Nat) (hD : 0 < D) :
    ((N / D : Nat) : ℚ) ≤ (N : ℚ) / D ∧ (N : ℚ) / D < ((N / D : Nat) : ℚ) + 1 ∧
    |(((if D < 2 * (N % D) ∨ (2 * (N % D) = D ∧ N / D % 2 = 1) then N / D + 1 else N / D : Nat) : ℚ))
        - (N : ℚ) / D| ≤ 1 / 2 := by
  have hD' : (0 : ℚ) < D := by exact_mod_cast hD
  have hdm : (N : ℚ) = D * (N / D : Nat) + (N % D : Nat) := by
    exact_mod_cast (Nat.div_add_mod N D).symm
  have hr : N % D < D := Nat.mod_lt _ hD
  have hr' : ((N % D : Nat) : ℚ) < D := by exact_mod_cast hr
  have hr0 : (0 : ℚ) ≤ ((N % D : Nat) : ℚ) := by positivity
  have hy : (N : ℚ) / D = (N / D : Nat) + ((N % D : Nat) : ℚ) / D := by
    rw [hdm]
    field_simp
    ring
  have hf0 : 0 ≤ ((N % D : Nat) : ℚ) / D := by positivity
  have hf1 : ((N % D : Nat) : ℚ) / D < 1 := by
    rw [div_lt_one hD']
    exact hr'
  refine ⟨by rw [hy]; linarith, by rw [hy]; linarith, ?_⟩
  rw [hy]
  split
  · rename_i hc
    have h2 : (D : ℚ) ≤ 2 * ((N % D : Nat) : ℚ) := by
      rcases hc with hc | ⟨hc, _⟩
      · exact_mod_cast le_of_lt hc
      · exact_mod_cast le_of_eq hc.symm
    have h3 : 1 / 2 ≤ ((N % D : Nat) : ℚ) / D := by
      rw [le_div_iff₀ hD']
      linarith
    rw [abs_le]
    push_cast
    constructor <;> linarith
  · rename_i hc
    have h2 : 2 * ((N % D : Nat) : ℚ) ≤ D := by
      have : ¬ D < 2 * (N % D) := fun h => hc (Or.inl h)
      exact_mod_cast not_lt.mp this
    have h3 : ((N % D : Nat) : ℚ) / D ≤ 1 / 2 := by
      rw [div_le_iff₀ hD']
      linarith
    rw [abs_le]
    constructor <;> linarith


/-- The exponent that `roundNearestEven` selects puts the scaled value in
`[2^52, 2^53)`. -/
theorem exponent_spec (n d : Nat) (hn : 0 < n) (hd : 0 < d) :
    (2 : ℚ) ^ 52 ≤ (n : ℚ) / d /
        2 ^ (if 2 ^ 53 ≤ (scaleFrac n d ((bitLen n : Int) - (bitLen d : Int) - 53)).1 /
              (scaleFrac n d ((bitLen n : Int) - (bitLen d : Int) - 53)).2
            then (bitLen n : Int) - (bitLen d : Int) - 53 + 1
            else (bitLen n : Int) - (bitLen d : Int) - 53) ∧
      (n : ℚ) / d /
        2 ^ (if 2 ^ 53 ≤ (scaleFrac n d ((bitLen n : Int) - (bitLen d : Int) - 53)).1 /
              (scaleFrac n d ((bitLen n : Int) - (bitLen d : Int) - 53)).2
            then (bitLen n : Int) - (bitLen d : Int) - 53 + 1
            else (bitLen n : Int) - (bitLen d : Int) - 53) < 2 ^ 53 := by
  obtain ⟨hn1, hn2⟩ := bitLen_spec n hn
  obtain ⟨hd1, hd2⟩ := bitLen_spec d hd
  generalize he0 : (bitLen n : Int) - (bitLen d : Int) - 53 = e0
  have hnq : (0 : ℚ) < n := by exact_mod_cast hn
  have hdq : (0 : ℚ) < d := by exact_mod_cast hd
  have hA : (0 : ℚ) < 2 ^ bitLen n := by positivity
  have hB : (0 : ℚ) < 2 ^ bitLen d := by positivity
  have hn1' : (n : ℚ) < 2 ^ bitLen n := by exact_mod_cast hn1
  have hn2' : (2 : ℚ) ^ bitLen n ≤ 2 * n := by exact_mod_cast hn2
  have hd1' : (d : ℚ) < 2 ^ bitLen d := by exact_mod_cast hd1
  have hd2' : (2 : ℚ) ^ bitLen d ≤ 2 * d := by exact_mod_cast hd2
  have hpow : (2 : ℚ) ^ e0 = 2 ^ bitLen n / (2 ^ bitLen d * 2 ^ 53) := by
    rw [← he0, zpow_sub₀ (two_ne_zero), zpow_sub₀ (two_ne_zero), zpow_natCast, zpow_natCast,
      div_div]
    norm_num
  have hy : (n : ℚ) / d / 2 ^ e0 = n * 2 ^ bitLen d * 2 ^ 53 / (d * 2 ^ bitLen n) := by
    rw [hpow]
    field_simp
    ring
  have hlo : (2 : ℚ) ^ 52 < (n : ℚ) / d / 2 ^ e0 := by
    rw [hy, lt_div_iff₀ (by positivity)]
    nlinarith [mul_pos hA hB, mul_pos hA hdq, mul_pos hnq hB]
  have hhi : (n : ℚ) / d / 2 ^ e0 < 2 ^ 54 := by
    rw [hy, div_lt_iff₀ (by positivity)]
    nlinarith [mul_pos hA hB, mul_pos hA hdq, mul_pos hnq hB]
  have hDpos := scaleFrac_pos n d e0 hd
  obtain ⟨hq1, hq2, _⟩ := nearest_spec (scaleFrac n d e0).1 (scaleFrac n d e0).2 hDpos
  rw [scaleFrac_val] at hq1 hq2
  split
  · rename_i hc
    have hc' : (2 : ℚ) ^ 53 ≤ (((scaleFrac n d e0).1 / (scaleFrac n d e0).2 : Nat) : ℚ) := by
      exact_mod_cast hc
    rw [zpow_add₀ (two_ne_zero), zpow_one, ← div_div]
    constructor
    · rw [le_div_iff₀ (by norm_num)]
      linarith
    · rw [div_lt_iff₀ (by norm_num)]
      linarith
  · rename_i hc
    have hc' : (((scaleFrac n d e0).1 / (scaleFrac n d e0).2 : Nat) : ℚ) + 1 ≤ 2 ^ 53 := by
      have : (scaleFrac n d e0).1 / (scaleFrac n d e0).2 + 1 ≤ 2 ^ 53 := by omega
      exact_mod_cast this
    exact ⟨le_of_lt hlo, by linarith⟩


theorem two_zpow_add_nat (e : ℤ) (k : ℕ) : (2 : ℚ) ^ (e + k) = 2 ^ e * 2 ^ k := by
  rw [zpow_add₀ (two_ne_zero), zpow_natCast]

theorem nat_eq_of_abs_le_half (m M : Nat) (h : |(m : ℚ) - (M : ℚ)| ≤ 1 / 2) : m = M := by
  rw [abs_le] at h
  by_contra hne
  rcases Nat.lt_or_gt_of_ne hne with h1 | h1
  · have : (m : ℚ) + 1 ≤ M := by exact_mod_cast h1
    linarith
  · have : (M : ℚ) + 1 ≤ m := by exact_mod_cast h1
    linarith

/-- Rounding in the normal range: the result is a finite value in canonical form
within half a unit in the last place of `n / d`, and it is `n / d` itself when
that is a binary64 value. -/
theorem roundNearestEven_normal (neg : Bool) (n d : Nat) (hn : 0 < n) (hd : 0 < d)
    (hlo : (2 : ℚ) ^ (-1022 : ℤ) ≤ (n : ℚ) / d) (hhi : (n : ℚ) / d < 2 ^ (1023 : ℤ)) :
    ∃ m e, roundNearestEven neg n d = fin neg m e ∧ 2 ^ 52 ≤ m ∧ m < 2 ^ 53 ∧
      -1074 ≤ e ∧ e ≤ 971 ∧
      |(m : ℚ) * 2 ^ e - (n : ℚ) / d| ≤ (n : ℚ) / d / 2 ^ 53 ∧
      (∀ (M : Nat) (E : Int), 2 ^ 52 ≤ M → M < 2 ^ 53 → (n : ℚ) / d = M * 2 ^ E →
        m = M ∧ e = E) := by
  obtain ⟨h52, h53⟩ := exponent_spec n d hn hd
  unfold roundNearestEven
  rw [if_neg (by omega)]
  dsimp only
  generalize he1 : (if 2 ^ 53 ≤ (scaleFrac n d ((bitLen n : Int) - (bitLen d : Int) - 53)).1 /
              (scaleFrac n d ((bitLen n : Int) - (bitLen d : Int) - 53)).2
            then (bitLen n : Int) - (bitLen d : Int) - 53 + 1
            else (bitLen n : Int) - (bitLen d : Int) - 53) = e1 at h52 h53 ⊢
  clear he1
  have hP : (0 : ℚ) < 2 ^ e1 := by positivity
  have hx1 : (n : ℚ) / d < 2 ^ (e1 + (53 : ℕ)) := by
    rw [two_zpow_add_nat, mul_comm]
    exact (div_lt_iff₀ hP).mp h53
  have hx2 : (2 : ℚ) ^ (e1 + (52 : ℕ)) ≤ (n : ℚ) / d := by
    rw [two_zpow_add_nat, mul_comm]
    exact (le_div_iff₀ hP).mp h52
  have hge : ¬ e1 < -1074 := by
    intro hlt
    have h1 := lt_of_le_of_lt hlo hx1
    rw [zpow_lt_zpow_iff_right₀ (by norm_num)] at h1
    push_cast at h1
    omega
  have hle : e1 ≤ 970 := by
    have h1 := lt_of_le_of_lt hx2 hhi
    rw [zpow_lt_zpow_iff_right₀ (by norm_num)] at h1
    push_cast at h1
    omega
  simp only [if_neg hge]
  have hDpos := scaleFrac_pos n d e1 hd
  obtain ⟨-, -, hm⟩ := nearest_spec (scaleFrac n d e1).1 (scaleFrac n d e1).2 hDpos
  rw [scaleFrac_val] at hm
  generalize (if (scaleFrac n d e1).2 < 2 * ((scaleFrac n d e1).1 % (scaleFrac n d e1).2) ∨
      2 * ((scaleFrac n d e1).1 % (scaleFrac n d e1).2) = (scaleFrac n d e1).2 ∧
        (scaleFrac n d e1).1 / (scaleFrac n d e1).2 % 2 = 1
    then (scaleFrac n d e1).1 / (scaleFrac n d e1).2 + 1
    else (scaleFrac n d e1).1 / (scaleFrac n d e1).2) = m at hm ⊢
  obtain ⟨y, hy⟩ : ∃ y : ℚ, y = (n : ℚ) / d / 2 ^ e1 := ⟨_, rfl⟩
  rw [← hy] at hm h52 h53
  have hxy : (n : ℚ) / d = y * 2 ^ e1 := by
    rw [hy]
    field_simp
    ring
  have hm' := abs_le.mp hm
  have hmlo : 2 ^ 52 ≤ m := by
    by_contra hc
    have : (m : ℚ) + 1 ≤ 2 ^ 52 := by
      have : m + 1 ≤ 2 ^ 52 := by omega
      exact_mod_cast this
    linarith [hm'.1]
  have hmhi : m ≤ 2 ^ 53 := by
    by_contra hc
    have : (2 : ℚ) ^ 53 + 1 ≤ m := by
      have : 2 ^ 53 + 1 ≤ m := by omega
      exact_mod_cast this
    linarith [hm'.2]
  have hexact : ∀ (M : Nat) (E : Int), 2 ^ 52 ≤ M → M < 2 ^ 53 → (n : ℚ) / d = M * 2 ^ E →
      m = M ∧ e1 = E := by
    intro M E hM1 hM2 hME
    have hM1' : (2 : ℚ) ^ 52 ≤ M := by exact_mod_cast hM1
    have hM2' : (M : ℚ) < 2 ^ 53 := by exact_mod_cast hM2
    have hyM : y = M * 2 ^ (E - e1) := by
      rw [hy, hME, zpow_sub₀ (two_ne_zero)]
      field_simp
    have hE : e1 = E := by
      by_contra hne
      rcases lt_or_gt_of_ne hne with h1 | h1
      · have : (2 : ℚ) ^ (1 : ℤ) ≤ 2 ^ (E - e1) := zpow_le_zpow_right₀ (by norm_num) (by omega)
        rw [zpow_one] at this
        have : 2 * (M : ℚ) ≤ y := by rw [hyM]; nlinarith
        linarith
      · have : (2 : ℚ) ^ (E - e1) ≤ 2 ^ (-1 : ℤ) := zpow_le_zpow_right₀ (by norm_num) (by omega)
        rw [zpow_neg, zpow_one] at this
        have : y ≤ (M : ℚ) / 2 := by rw [hyM]; nlinarith
        linarith
    refine ⟨?_, hE⟩
    apply nat_eq_of_abs_le_half
    rw [hE, sub_self, zpow_zero, mul_one] at hyM
    rw [← hyM]
    exact hm
  by_cases h53m : m = 2 ^ 53
  · simp only [h53m, if_true]
    rw [if_neg (by omega)]
    refine ⟨2 ^ 52, e1 + 1, rfl, le_refl _, by norm_num, by omega, by omega, ?_, ?_⟩
    · have hval : ((2 ^ 52 : Nat) : ℚ) * 2 ^ (e1 + 1) = (m : ℚ) * 2 ^ e1 := by
        rw [h53m, zpow_add₀ (two_ne_zero), zpow_one]
        push_cast
        ring
      rw [hval, hxy, abs_le]
      constructor
      · have := mul_nonneg (by linarith [hm'.1] : (0 : ℚ) ≤ (m : ℚ) - y + 1 / 2) (le_of_lt hP)
        have := mul_nonneg (by linarith : (0 : ℚ) ≤ y - 2 ^ 52) (le_of_lt hP)
        linarith
      · have := mul_nonneg (by linarith [hm'.2] : (0 : ℚ) ≤ y + 1 / 2 - (m : ℚ)) (le_of_lt hP)
        have := mul_nonneg (by linarith : (0 : ℚ) ≤ y - 2 ^ 52) (le_of_lt hP)
        linarith
    · intro M E hM1 hM2 hME
      have := (hexact M E hM1 hM2 hME).1
      omega
  · simp only [h53m, if_false]
    rw [if_neg (by omega)]
    refine ⟨m, e1, rfl, hmlo, by omega, by omega, by omega, ?_, hexact⟩
    rw [hxy, abs_le]
    constructor
    · have := mul_nonneg (by linarith [hm'.1] : (0 : ℚ) ≤ (m : ℚ) - y + 1 / 2) (le_of_lt hP)
      have := mul_nonneg (by linarith : (0 : ℚ) ≤ y - 2 ^ 52) (le_of_lt hP)
      linarith
    · have := mul_nonneg (by linarith [hm'.2] : (0 : ℚ) ≤ y + 1 / 2 - (m : ℚ)) (le_of_lt hP)
      have := mul_nonneg (by linarith : (0 : ℚ) ≤ y - 2 ^ 52) (le_of_lt hP)
      linarith

theorem scaleFrac_fst_pos (n d : Nat) (e : Int) (hn : 0 < n) : 0 < (scaleFrac n d e).1 := by
  unfold scaleFrac
  split
  · exact hn
  · exact Nat.mul_pos hn (Nat.pos_pow_of_pos _ (by decide))

theorem roundNearestEven_of_dyadic (neg : Bool) (n d M : Nat) (E : Int) (hn : 0 < n)
    (hd : 0 < d) (hM1 : 2 ^ 52 ≤ M) (hM2 : M < 2 ^ 53) (hE1 : -1074 ≤ E) (hE2 : E ≤ 970)
    (hx : (n : ℚ) / d = M * 2 ^ E) : roundNearestEven neg n d = fin neg M E := by
  have hM1' : (2 : ℚ) ^ (52 : ℕ) ≤ M := by exact_mod_cast hM1
  have hM2' : (M : ℚ) < 2 ^ (53 : ℕ) := by exact_mod_cast hM2
  have hP : (0 : ℚ) < 2 ^ E := by positivity
  have hlo : (2 : ℚ) ^ (-1022 : ℤ) ≤ (n : ℚ) / d := by
    rw [hx]
    have h1 : (2 : ℚ) ^ (-1022 : ℤ) ≤ 2 ^ (E + (52 : ℕ)) :=
      zpow_le_zpow_right₀ (by norm_num) (by push_cast; omega)
    rw [two_zpow_add_nat] at h1
    nlinarith
  have hhi : (n : ℚ) / d < 2 ^ (1023 : ℤ) := by
    rw [hx]
    have h1 : (2 : ℚ) ^ (E + (53 : ℕ)) ≤ 2 ^ (1023 : ℤ) :=
      zpow_le_zpow_right₀ (by norm_num) (by push_cast; omega)
    rw [two_zpow_add_nat] at h1
    nlinarith
  obtain ⟨m, e, hr, -, -, -, -, -, hex⟩ := roundNearestEven_normal neg n d hn hd hlo hhi
  obtain ⟨h1, h2⟩ := hex M E hM1 hM2 hx
  rw [hr, h1, h2]

theorem roundScaled_of_dyadic (neg : Bool) (n d M : Nat) (k E : Int) (hn : 0 < n)
    (hd : 0 < d) (hM1 : 2 ^ 52 ≤ M) (hM2 : M < 2 ^ 53) (hE1 : -1074 ≤ E) (hE2 : E ≤ 970)
    (hx : (n : ℚ) / d * 2 ^ k = M * 2 ^ E) : roundScaled neg n d k = fin neg M E := by
  unfold roundScaled
  apply roundNearestEven_of_dyadic neg _ _ M E (scaleFrac_fst_pos n d _ hn)
    (scaleFrac_pos n d _ hd) hM1 hM2 hE1 hE2
  rw [scaleFrac_val, zpow_neg, div_inv_eq_mul]
  exact hx

theorem canonical_of_nat (a : Nat) (h0 : 0 < a) (h : a < 2 ^ 53) :
    ∃ (M : Nat) (E : Int), 2 ^ 52 ≤ M ∧ M < 2 ^ 53 ∧ -52 ≤ E ∧ E ≤ 0 ∧ (M : ℚ) * 2 ^ E = a := by
  obtain ⟨h1, h2⟩ := bitLen_spec a h0
  have hb1 : 1 ≤ bitLen a := by
    by_contra hc
    have : bitLen a = 0 := by omega
    rw [this] at h1
    omega
  have hb2 : bitLen a ≤ 53 := by
    by_contra hc
    have h54 : 2 ^ 54 ≤ 2 ^ bitLen a := Nat.pow_le_pow_right (by decide) (by omega)
    omega
  have hsplit : 2 ^ bitLen a * 2 ^ (53 - bitLen a) = 2 ^ 53 := by
    rw [← pow_add]
    congr 1
    omega
  have hpos : 0 < 2 ^ (53 - bitLen a) := Nat.pos_pow_of_pos _ (by decide)
  refine ⟨a * 2 ^ (53 - bitLen a), (bitLen a : Int) - 53, ?_, ?_, by omega, by omega, ?_⟩
  · have : 2 ^ bitLen a * 2 ^ (53 - bitLen a) ≤ 2 * a * 2 ^ (53 - bitLen a) :=
      Nat.mul_le_mul_right _ h2
    rw [hsplit] at this
    have e : (2 : Nat) ^ 53 = 2 * 2 ^ 52 := by norm_num
    rw [e, Nat.mul_assoc] at this
    omega
  · have : a * 2 ^ (53 - bitLen a) < 2 ^ bitLen a * 2 ^ (53 - bitLen a) :=
      Nat.mul_lt_mul_of_pos_right h1 hpos
    rw [hsplit] at this
    exact this
  · have hz : (2 : ℚ) ^ ((bitLen a : Int) - 53) = 2 ^ bitLen a / 2 ^ 53 := by
      rw [zpow_sub₀ (two_ne_zero), zpow_natCast]
      norm_num
    have hq : (2 : ℚ) ^ bitLen a * 2 ^ (53 - bitLen a) = 2 ^ 53 := by exact_mod_cast hsplit
    rw [hz]
    push_cast
    field_simp
    linear_combination (a : ℚ) * hq

theorem ofRatio_nat (a : Nat) (h : a < 2 ^ 53) :
    ∃ (m : Nat) (e : Int), ofRatio a 1 = fin false m e ∧ (m : ℚ) * 2 ^ e = a ∧
      (0 < a → 2 ^ 52 ≤ m ∧ m < 2 ^ 53 ∧ -52 ≤ e ∧ e ≤ 0) := by
  by_cases h0 : a = 0
  · subst h0
    exact ⟨0, -1074, by simp [ofRatio, roundNearestEven], by simp, fun hc => absurd hc (by decide)⟩
  · obtain ⟨M, E, hM1, hM2, hE1, hE2, hv⟩ := canonical_of_nat a (by omega) h
    refine ⟨M, E, ?_, hv, fun _ => ⟨hM1, hM2, hE1, hE2⟩⟩
    unfold ofRatio
    apply roundNearestEven_of_dyadic false a 1 M E (by omega) (by decide) hM1 hM2 (by omega)
      (by omega)
    rw [hv]
    simp

theorem two_pow_toNat (z : ℤ) (hz : 0 ≤ z) : ((2 ^ z.toNat : ℕ) : ℚ) = (2 : ℚ) ^ z := by
  obtain ⟨k, rfl⟩ := Int.eq_ofNat_of_zero_le hz
  simp

theorem add_fin_nonneg (m m' : Nat) (e e' : Int) :
    add (fin false m e) (fin false m' e') =
      if m * 2 ^ (e - (if e ≤ e' then e else e')).toNat +
          m' * 2 ^ (e' - (if e ≤ e' then e else e')).toNat = 0
      then fin false 0 (-1074)
      else roundScaled false
        (m * 2 ^ (e - (if e ≤ e' then e else e')).toNat +
          m' * 2 ^ (e' - (if e ≤ e' then e else e')).toNat) 1 (if e ≤ e' then e else e') := by
  generalize hk : (if e ≤ e' then e else e') = k
  have hT : signed false m * 2 ^ (e - k).toNat + signed false m' * 2 ^ (e' - k).toNat
      = ((m * 2 ^ (e - k).toNat + m' * 2 ^ (e' - k).toNat : Nat) : Int) := by
    simp [signed]
  simp only [add, hk, hT]
  by_cases h0 : m * 2 ^ (e - k).toNat + m' * 2 ^ (e' - k).toNat = 0
  · rw [if_pos h0, if_pos (by exact_mod_cast h0)]
    rfl
  · rw [if_neg h0, if_neg (by exact_mod_cast h0)]
    congr 1

/-- Adding two whole numbers whose sum is below 2^53 does not round. -/
theorem add_ofRatio (a b : Nat) (h : a + b < 2 ^ 53) :
    add (ofRatio a 1) (ofRatio b 1) = ofRatio (a + b) 1 := by
  obtain ⟨m, e, hma, hva, -⟩ := ofRatio_nat a (by omega)
  obtain ⟨m', e', hmb, hvb, -⟩ := ofRatio_nat b (by omega)
  obtain ⟨M, E, hmc, hvc, hcan⟩ := ofRatio_nat (a + b) h
  rw [hma, hmb, hmc, add_fin_nonneg]
  generalize hk : (if e ≤ e' then e else e') = k
  have hk1 : 0 ≤ e - k := by rw [← hk]; split <;> omega
  have hk2 : 0 ≤ e' - k := by rw [← hk]; split <;> omega
  have hval : ((m * 2 ^ (e - k).toNat + m' * 2 ^ (e' - k).toNat : Nat) : ℚ) * 2 ^ k
      = (a : ℚ) + b := by
    push_cast
    have e1 : ((2 : ℚ) ^ (e - k).toNat) = (2 : ℚ) ^ (e - k) := by
      have := two_pow_toNat (e - k) hk1
      push_cast at this
      exact this
    have e2 : ((2 : ℚ) ^ (e' - k).toNat) = (2 : ℚ) ^ (e' - k) := by
      have := two_pow_toNat (e' - k) hk2
      push_cast at this
      exact this
    rw [e1, e2, add_mul, mul_assoc, mul_assoc, ← zpow_add₀ (two_ne_zero),
      ← zpow_add₀ (two_ne_zero), sub_add_cancel, sub_add_cancel, hva, hvb]
  by_cases h0 : m * 2 ^ (e - k).toNat + m' * 2 ^ (e' - k).toNat = 0
  · rw [if_pos h0]
    rw [h0] at hval
    have hab : a + b = 0 := by
      have : (a : ℚ) + b = 0 := by rw [← hval]; simp
      exact_mod_cast this
    have hM : (M : ℚ) * 2 ^ E = 0 := by rw [hvc, hab]; simp
    have hM0 : M = 0 := by
      have hP : (2 : ℚ) ^ E ≠ 0 := by positivity
      have := (mul_eq_zero.mp hM).resolve_right hP
      exact_mod_cast this
    have hz : ofRatio (a + b) 1 = fin false 0 (-1074) := by
      rw [hab]
      simp [ofRatio, roundNearestEven]
    rw [← hmc, hz]
  · rw [if_neg h0]
    have hpos : 0 < a + b := by
      by_contra hc
      have hab : a + b = 0 := by omega
      have : ((m * 2 ^ (e - k).toNat + m' * 2 ^ (e' - k).toNat : Nat) : ℚ) * 2 ^ k = 0 := by
        rw [hval]
        exact_mod_cast hab
      have hP : (2 : ℚ) ^ k ≠ 0 := by positivity
      have := (mul_eq_zero.mp this).resolve_right hP
      exact h0 (by exact_mod_cast this)
    obtain ⟨hM1, hM2, hE1, hE2⟩ := hcan hpos
    apply roundScaled_of_dyadic false _ 1 M k E (by omega) (by decide) hM1 hM2 (by omega)
      (by omega)
    rw [Nat.cast_one, div_one, hval, hvc]
    push_cast
    ring

theorem roundScaled_normal (neg : Bool) (n d : Nat) (k : Int) (hn : 0 < n) (hd : 0 < d)
    (hlo : (2 : ℚ) ^ (-1022 : ℤ) ≤ (n : ℚ) / d * 2 ^ k)
    (hhi : (n : ℚ) / d * 2 ^ k < 2 ^ (1023 : ℤ)) :
    ∃ m e, roundScaled neg n d k = fin neg m e ∧
      |(m : ℚ) * 2 ^ e - (n : ℚ) / d * 2 ^ k| ≤ (n : ℚ) / d * 2 ^ k / 2 ^ 53 := by
  have hv : ((scaleFrac n d (-k)).1 : ℚ) / ((scaleFrac n d (-k)).2 : ℚ) = (n : ℚ) / d * 2 ^ k := by
    rw [scaleFrac_val, zpow_neg, div_inv_eq_mul]
  obtain ⟨m, e, hr, -, -, -, -, hb, -⟩ := roundNearestEven_normal neg _ _
    (scaleFrac_fst_pos n d (-k) hn) (scaleFrac_pos n d (-k) hd) (by rw [hv]; exact hlo)
    (by rw [hv]; exact hhi)
  rw [hv] at hb
  exact ⟨m, e, hr, hb⟩

theorem zero_eq_ofRatio : zero = ofRatio 0 1 := by
  simp [zero, ofRatio, roundNearestEven]

/-- Dividing a whole number below 2^53 by 2^30 does not round. -/
theorem div_ofRatio_gib (S : Nat) (h : S < 2 ^ 53) :
    ∃ (m : Nat) (e : Int),
      div (ofRatio S 1) (ofRatio (1024 * 1024 * 1024) 1) = fin false m e ∧
      (m : ℚ) * 2 ^ e = (S : ℚ) / 2 ^ 30 ∧
      (S = 0 → m = 0 ∧ e = -1074) ∧
      (0 < S → 2 ^ 52 ≤ m ∧ m < 2 ^ 53 ∧ -82 ≤ e ∧ e ≤ -30) := by
  have hr : ofRatio (1024 * 1024 * 1024) 1 = fin false (2 ^ 52) (-22) := by decide!
  obtain ⟨m, e, hm, hv, hcan⟩ := ofRatio_nat S h
  rw [hm, hr]
  have hdiv : div (fin false m e) (fin false (2 ^ 52) (-22))
      = roundScaled false m (2 ^ 52) (e - (-22)) := by
    simp [div]
  rw [hdiv]
  by_cases h0 : S = 0
  · subst h0
    have hm0 : m = 0 := by
      have hP : (2 : ℚ) ^ e ≠ 0 := by positivity
      have : (m : ℚ) * 2 ^ e = 0 := by rw [hv]; simp
      have := (mul_eq_zero.mp this).resolve_right hP
      exact_mod_cast this
    subst hm0
    refine ⟨0, -1074, ?_, by simp, fun _ => ⟨rfl, rfl⟩, fun hc => absurd hc (by decide)⟩
    unfold roundScaled roundNearestEven
    rw [if_pos]
    left
    unfold scaleFrac
    split <;> simp
  · obtain ⟨hM1, hM2, hE1, hE2⟩ := hcan (by omega)
    have hval : (m : ℚ) * 2 ^ (e - 30) = (S : ℚ) / 2 ^ 30 := by
      rw [zpow_sub₀ (two_ne_zero), ← hv]
      have : (2 : ℚ) ^ (30 : ℤ) = 2 ^ 30 := by norm_cast
      rw [this]
      ring
    refine ⟨m, e - 30, ?_, hval, fun hc => absurd hc h0, fun _ => ⟨hM1, hM2, by omega, by omega⟩⟩
    apply roundScaled_of_dyadic false m (2 ^ 52) m _ _ (by omega) (by positivity) hM1 hM2
      (by omega) (by omega)
    have e1 : (2 : ℚ) ^ (e - (-22)) = 2 ^ e * 2 ^ 22 := by
      rw [sub_neg_eq_add]
      exact two_zpow_add_nat e 22
    have e2 : (2 : ℚ) ^ (e - 30) = 2 ^ e / 2 ^ 30 := by
      rw [zpow_sub₀ (two_ne_zero)]
      norm_cast
    rw [e1, e2]
    push_cast
    field_simp
    ring

/-- The product of a normal value between 2^-30 and 2^23 and the binary64 value
of 0.07 is within a relative error of 2^-52 of the value times 0.07. -/
theorem mul_price (m : Nat) (e : Int) (hm1 : 2 ^ 52 ≤ m) (hm2 : m < 2 ^ 53)
    (he1 : -82 ≤ e) (he2 : e ≤ -30) :
    ∃ (c : Nat) (f : Int), mul (fin false m e) (ofRatio 7 100) = fin false c f ∧
      |(c : ℚ) * 2 ^ f - (m : ℚ) * 2 ^ e * (7 / 100)| ≤ (m : ℚ) * 2 ^ e * (7 / 100) / 2 ^ 52 := by
  have hp : ofRatio 7 100 = fin false 5044031582654956 (-56) := by decide!
  rw [hp]
  have hmul : mul (fin false m e) (fin false 5044031582654956 (-56))
      = roundScaled false (m * 5044031582654956) 1 (e + -56) := by
    simp [mul]
  rw [hmul]
  have hm1' : (2 : ℚ) ^ 52 ≤ m := by exact_mod_cast hm1
  have hm2' : (m : ℚ) < 2 ^ 53 := by exact_mod_cast hm2
  have hE : (0 : ℚ) < 2 ^ e := by positivity
  have hx : ((m * 5044031582654956 : Nat) : ℚ) / (1 : Nat) * 2 ^ (e + -56)
      = (m : ℚ) * 2 ^ e * (5044031582654956 / 2 ^ 56) := by
    rw [zpow_add₀ (two_ne_zero), zpow_neg]
    have : (2 : ℚ) ^ (56 : ℤ) = 2 ^ 56 := by norm_cast
    rw [this]
    push_cast
    field_simp
    ring
  have hT1 : (2 : ℚ) ^ (-82 : ℤ) ≤ 2 ^ e := zpow_le_zpow_right₀ (by norm_num) he1
  have hT2 : (2 : ℚ) ^ e ≤ 2 ^ (-30 : ℤ) := zpow_le_zpow_right₀ (by norm_num) he2
  have hT : (0 : ℚ) < (m : ℚ) * 2 ^ e := by positivity
  have hTlo : (2 : ℚ) ^ (-30 : ℤ) ≤ (m : ℚ) * 2 ^ e := by
    have h1 : (2 : ℚ) ^ (-30 : ℤ) = 2 ^ 52 * 2 ^ (-82 : ℤ) := by norm_num
    rw [h1]
    exact mul_le_mul hm1' hT1 (by positivity) (by positivity)
  have hThi : (m : ℚ) * 2 ^ e ≤ 2 ^ (23 : ℤ) := by
    have h1 : (2 : ℚ) ^ (23 : ℤ) = 2 ^ 53 * 2 ^ (-30 : ℤ) := by norm_num
    rw [h1]
    exact mul_le_mul (le_of_lt hm2') hT2 (by positivity) (by positivity)
  have hp1 : (2 : ℚ) ^ (-4 : ℤ) ≤ 5044031582654956 / 2 ^ 56 := by norm_num
  have hp2 : (5044031582654956 : ℚ) / 2 ^ 56 ≤ 2 ^ (-3 : ℤ) := by norm_num
  have hlo : (2 : ℚ) ^ (-1022 : ℤ) ≤ (m : ℚ) * 2 ^ e * (5044031582654956 / 2 ^ 56) := by
    have h1 : (2 : ℚ) ^ (-1022 : ℤ) ≤ 2 ^ (-30 + -4 : ℤ) :=
      zpow_le_zpow_right₀ (by norm_num) (by norm_num)
    rw [zpow_add₀ (two_ne_zero)] at h1
    exact le_trans h1 (mul_le_mul hTlo hp1 (by positivity) (le_of_lt hT))
  have hhi : (m : ℚ) * 2 ^ e * (5044031582654956 / 2 ^ 56) < 2 ^ (1023 : ℤ) := by
    have h1 : (2 : ℚ) ^ (23 + -3 : ℤ) < 2 ^ (1023 : ℤ) :=
      zpow_lt_zpow_right₀ (by norm_num) (by norm_num)
    rw [zpow_add₀ (two_ne_zero)] at h1
    exact lt_of_le_of_lt (mul_le_mul hThi hp2 (by positivity) (by positivity)) h1
  obtain ⟨c, f, hr, hb⟩ := roundScaled_normal false (m * 5044031582654956) 1 (e + -56)
    (Nat.mul_pos (by omega) (by decide)) (by decide) (by rw [hx]; exact hlo)
    (by rw [hx]; exact hhi)
  refine ⟨c, f, hr, ?_⟩
  rw [hx] at hb
  generalize (m : ℚ) * 2 ^ e = T at hb hT ⊢
  generalize (c : ℚ) * 2 ^ f = C at hb ⊢
  rw [abs_le] at hb ⊢
  obtain ⟨hb1, hb2⟩ := hb
  have k1 : (5044031582654956 : ℚ) / 2 ^ 56 / 2 ^ 53 + (5044031582654956 / 2 ^ 56 - 7 / 100)
      ≤ 7 / 100 / 2 ^ 52 := by norm_num
  have k2 : (7 : ℚ) / 100 ≤ 5044031582654956 / 2 ^ 56 := by norm_num
  have k3 : (5044031582654956 : ℚ) / 2 ^ 56 / 2 ^ 53 ≤ 7 / 100 / 2 ^ 52 := by norm_num
  have j1 := mul_le_mul_of_nonneg_left k1 (le_of_lt hT)
  have j2 := mul_le_mul_of_nonneg_left k2 (le_of_lt hT)
  have j3 := mul_le_mul_of_nonneg_left k3 (le_of_lt hT)
  constructor <;> linarith

end Float64

/-! ## Traffic -/

theorem sumDatapoints_eq_foldl (datapoints : List Datapoint) :
    ∀ total, sumDatapoints datapoints total =
      (datapoints.map (fun d => d.Sum)).foldl Float64.add total := by
  induction datapoints with
  | nil => intro total; rfl
  | cons d rest ih => intro total; simp [sumDatapoints, ih]

theorem sumDatapoints_bytes (bytes : List Nat) :
    ∀ S : Nat, S + bytes.sum < 2 ^ 53 →
      sumDatapoints (bytes.map (fun n => (⟨Float64.ofRatio n 1⟩ : Datapoint)))
        (Float64.ofRatio S 1) = Float64.ofRatio (S + bytes.sum) 1 := by
  induction bytes with
  | nil => intro S _; simp [sumDatapoints]
  | cons b rest ih =>
    intro S hS
    simp only [List.sum_cons] at hS
    simp only [List.map_cons, sumDatapoints, List.sum_cons]
    rw [Float64.add_ofRatio S b (by omega), ih (S + b) (by omega), Nat.add_assoc]

/-- C10, counterexample: for the datapoints 10^16, 1, 1 (each a binary64
value) the traffic that `GetTrafficInGB` computes is 10^16 / 2^30, not their sum
divided by 2^30, although that quotient is a binary64 value: it is the traffic
computed for the same datapoints in the order 1, 1, 10^16. -/
theorem GetTrafficInGB_rounds :
    GetTrafficInGB
        (fun _ => some [⟨Float64.ofRatio (10 ^ 16) 1⟩, ⟨Float64.ofRatio 1 1⟩,
          ⟨Float64.ofRatio 1 1⟩])
        (exampleRecord "i-1" "val1" "t3a.medium") =
        some (Float64.fin false 5000000000000000 (-29)) ∧
      (Float64.ofRatio (10 ^ 16) 1).toRat = 10 ^ 16 ∧ (Float64.ofRatio 1 1).toRat = 1 ∧
      (Float64.fin false 5000000000000000 (-29)).toRat ≠ (10 ^ 16 + 1 + 1) / 2 ^ 30 ∧
      GetTrafficInGB
        (fun _ => some [⟨Float64.ofRatio 1 1⟩, ⟨Float64.ofRatio 1 1⟩,
          ⟨Float64.ofRatio (10 ^ 16) 1⟩])
        (exampleRecord "i-1" "val1" "t3a.medium") =
        some (Float64.fin false 5000000000000001 (-29)) := by
  have h1 : Float64.ofRatio (10 ^ 16) 1 = Float64.fin false 5000000000000000 1 := by decide!
  have h2 : Float64.ofRatio 1 1 = Float64.fin false (2 ^ 52) (-52) := by decide!
  refine ⟨by decide!, ?_, ?_, ?_, by decide!⟩
  · rw [h1]; norm_num [Float64.toRat]
  · rw [h2]; norm_num [Float64.toRat]
  · norm_num [Float64.toRat]

/-- C10, amended: for the datapoints that the metrics query returns, the
traffic that `GetTrafficInGB` computes is the binary64 accumulation of their
sum values in list order, starting at 0, divided by 2^30, and the cost that
`GetTrafficCostFor30Days` returns is the binary64 product of that traffic and
the binary64 value of 0.07, each operation rounded to nearest.  When the sum
values are whole byte counts whose total is below 2^53, no accumulation rounds:
the traffic is exactly their sum divided by 2^30, the cost is finite and within
a relative error of 2^-52 of the traffic times 0.07, and `main` keeps both.
For an empty datapoint list the traffic and the cost are both the number 0,
not not-a-number. -/
theorem GetTrafficCostFor30Days_value (metrics : String → Option (List Datapoint))
    (s : AWSInstance) (datapoints : List Datapoint) (h : metrics s.Id = some datapoints) :
    (GetTrafficInGB metrics s =
        some (Float64.div ((datapoints.map (fun d => d.Sum)).foldl Float64.add Float64.zero)
          (Float64.ofRatio (2 ^ 30) 1)) ∧
      GetTrafficCostFor30Days metrics s =
        (GetTrafficInGB metrics s).map
          (fun traffic => (Float64.mul traffic (Float64.ofRatio 7 100), traffic))) ∧
    (∀ bytes : List Nat,
      datapoints = bytes.map (fun n => (⟨Float64.ofRatio n 1⟩ : Datapoint)) →
      bytes.sum < 2 ^ 53 →
      ∃ traffic cost, GetTrafficInGB metrics s = some traffic ∧
        GetTrafficCostFor30Days metrics s = some (cost, traffic) ∧
        mainTraffic metrics s = some (cost, traffic) ∧
        traffic.isFinite = true ∧ cost.isFinite = true ∧
        traffic.toRat = (bytes.sum : ℚ) / 2 ^ 30 ∧
        |cost.toRat - traffic.toRat * (7 / 100)| ≤ traffic.toRat * (7 / 100) / 2 ^ 52) ∧
    (datapoints = [] →
      GetTrafficInGB metrics s = some Float64.zero ∧
      GetTrafficCostFor30Days metrics s = some (Float64.zero, Float64.zero) ∧
      mainTraffic metrics s = some (Float64.zero, Float64.zero) ∧
      Float64.zero.isNaN = false ∧ Float64.zero.toRat = 0) := by
  have h1 : GetTrafficInGB metrics s =
      some (Float64.div ((datapoints.map (fun d => d.Sum)).foldl Float64.add Float64.zero)
        (Float64.ofRatio (2 ^ 30) 1)) := by
    simp only [GetTrafficInGB, h, sumDatapoints_eq_foldl]
    rfl
  have h2 : GetTrafficCostFor30Days metrics s =
      (GetTrafficInGB metrics s).map
        (fun traffic => (Float64.mul traffic (Float64.ofRatio 7 100), traffic)) := by
    unfold GetTrafficCostFor30Days
    cases GetTrafficInGB metrics s <;> rfl
  have hz : Float64.div Float64.zero (Float64.ofRatio (2 ^ 30) 1) = Float64.zero := by decide!
  have hm : Float64.mul Float64.zero (Float64.ofRatio 7 100) = Float64.zero := by decide!
  refine ⟨⟨h1, h2⟩, ?_, ?_⟩
  · intro bytes hd hsum
    have hsumD : sumDatapoints datapoints Float64.zero = Float64.ofRatio bytes.sum 1 := by
      rw [hd, Float64.zero_eq_ofRatio, sumDatapoints_bytes bytes 0 (by omega), Nat.zero_add]
    obtain ⟨m, e, hdiv, hval, hzero, hcan⟩ := Float64.div_ofRatio_gib bytes.sum hsum
    have hG : GetTrafficInGB metrics s = some (Float64.fin false m e) := by
      simp only [GetTrafficInGB, h, hsumD, hdiv]
    have hT : (Float64.fin false m e).toRat = (bytes.sum : ℚ) / 2 ^ 30 := by
      simp only [Float64.toRat]
      rw [← hval]
      simp
    by_cases h0 : bytes.sum = 0
    · obtain ⟨hm0, he0⟩ := hzero h0
      subst hm0
      subst he0
      have hC : GetTrafficCostFor30Days metrics s
          = some (Float64.fin false 0 (-1074), Float64.fin false 0 (-1074)) := by
        rw [h2, hG]
        simp only [Option.map_some']
        exact congrArg some (congrArg (fun c => (c, Float64.fin false 0 (-1074))) hm)
      refine ⟨_, _, hG, hC, ?_, rfl, rfl, hT, ?_⟩
      · simp only [mainTraffic, hC]
        rfl
      · rw [hT, h0]
        simp [Float64.toRat]
    · obtain ⟨hm1, hm2, he1, he2⟩ := hcan (by omega)
      obtain ⟨c, f, hmul, hb⟩ := Float64.mul_price m e hm1 hm2 he1 he2
      have hC : GetTrafficCostFor30Days metrics s
          = some (Float64.fin false c f, Float64.fin false m e) := by
        rw [h2, hG]
        simp only [Option.map_some', hmul]
      refine ⟨_, _, hG, hC, ?_, rfl, rfl, hT, ?_⟩
      · simp only [mainTraffic, hC]
        rfl
      · have hTm : (Float64.fin false m e).toRat = (m : ℚ) * 2 ^ e := by simp [Float64.toRat]
        have hCc : (Float64.fin false c f).toRat = (c : ℚ) * 2 ^ f := by simp [Float64.toRat]
        rw [hTm, hCc]
        exact hb
  · intro he
    subst he
    have h3 : GetTrafficInGB metrics s = some Float64.zero := by
      rw [h1]
      simp only [List.map_nil, List.foldl_nil]
      rw [hz]
    have h4 : GetTrafficCostFor30Days metrics s = some (Float64.zero, Float64.zero) := by
      rw [h2, h3]
      simp only [Option.map_some']
      rw [hm]
    refine ⟨h3, h4, ?_, rfl, ?_⟩
    · simp only [mainTraffic, h4]
      rfl
    · norm_num [Float64.toRat, Float64.zero]

/-- C10, amended, at `exampleDatapoints`: 3 GiB and 1 GiB give a traffic of
exactly 4. -/
theorem GetTrafficCostFor30Days_value_witness :
    exampleDatapoints.length = 2 ∧
      ∃ traffic cost,
        GetTrafficInGB (fun _ => some exampleDatapoints)
          (exampleRecord "i-1" "val1" "t3a.medium") = some traffic ∧
        GetTrafficCostFor30Days (fun _ => some exampleDatapoints)
          (exampleRecord "i-1" "val1" "t3a.medium") = some (cost, traffic) ∧
        traffic.toRat = 4 ∧
        |cost.toRat - traffic.toRat * (7 / 100)| ≤ traffic.toRat * (7 / 100) / 2 ^ 52 := by
  refine ⟨rfl, ?_⟩
  obtain ⟨traffic, cost, h1, h2, -, -, -, h3, h4⟩ :=
    (GetTrafficCostFor30Days_value (fun _ => some exampleDatapoints)
      (exampleRecord "i-1" "val1" "t3a.medium") exampleDatapoints rfl).2.1
      [3 * 2 ^ 30, 2 ^ 30] rfl (by norm_num)
  refine ⟨traffic, cost, h1, h2, ?_, h4⟩
  rw [h3]
  norm_num

end AwsBilling
